import Mathlib

/-!
# Verification of the peewee SQL AST / generator and model layer

This file gives a shallow embedding, in Lean, of the parts of `src/peewee.py`
that the specification's claims are about:

* the `Context` / `State` / `AliasManager` machinery and the AST node
  rendering methods (`Entity`, `Value`, `Column`, `Table`, `Expression`,
  `NodeList`, `Function`, `Field`, `Select`) — section "SQL generation";
* `Insert._multi_insert` — section "Multi-row INSERT";
* `Metadata.add_ref` / `Metadata.remove_ref` — section "Reference graph";
* `_transaction` / `_savepoint` / `_atomic` context managers — section
  "Transactions";
* `Field.__init__` sort keys and `_SortedFieldList.insert` — section
  "Field ordering";
* `prefetch`, `prefetch_add_subquery`, `PrefetchQuery` — section "Prefetch";
* `CursorWrapper.__getitem__` / `fill_cache` — section "Cursor wrapper".

Each definition is translated from the named Python source location.  Python
object attributes become structure fields; dictionaries become association
lists; exceptions become `Except`; the one piece of aliasing that matters
(the in-place mutation of `Expression.flat` performed by `NodeList.__init__`)
is modeled by giving every `Expression` node an object id and threading a
heap `FlatStore : Nat → Bool` through the renderer.
-/

namespace Peewee

/-- Python scalar values (the elements that may appear inside a sequence
handed to a multi-`Value`; the claims never nest sequences). -/
inductive PyLit where
  | none
  | int (i : Int)
  | str (s : String)
  | bool (b : Bool)
deriving DecidableEq, Repr

/-- Python runtime values that flow through the generator as parameters.
Only the value shapes exercised by the claims are represented. -/
inductive PyVal where
  | none
  | int (i : Int)
  | str (s : String)
  | bool (b : Bool)
  | pylist (items : List PyLit)
deriving DecidableEq, Repr

/-- View a scalar as a value. -/
def PyLit.val : PyLit → PyVal
  | .none => .none
  | .int i => .int i
  | .str s => .str s
  | .bool b => .bool b

/-- Python's `str()` on the values above (used by `_StringField.coerce`). -/
def pyStr : PyVal → String
  | .none => "None"
  | .int i => toString i
  | .str s => s
  | .bool b => if b then "True" else "False"
  | .pylist _ => "[...]"

/-- Python truthiness for the values above. -/
def pyTruthy : PyVal → Bool
  | .none => false
  | .int i => i != 0
  | .str s => s ≠ ""
  | .bool b => b
  | .pylist items => items.length != 0

/-- The coercion behaviour of the `Field` subclasses the claims touch.
`default` is `Field.coerce` (identity), `string` is `_StringField.coerce`
(CharField/TextField), `int` is `IntegerField.coerce = int` and `bool` is
`bool`.  We only need `int()` on ints and bools. -/
inductive FieldKind where
  | default
  | string
  | int
  | bool
deriving DecidableEq, Repr

/-- `coerce` of each field kind (see `Field.coerce`, `_StringField.coerce`,
`IntegerField.coerce`, `BooleanField`). -/
def coerceVal : FieldKind → PyVal → PyVal
  | .default, v => v
  | .string, v => .str (pyStr v)
  | .int, v => match v with
    | .int i => .int i
    | .bool b => .int (if b then 1 else 0)
    | v => v
  | .bool, v => .bool (pyTruthy v)

/-- `Field.db_value`: `value if value is None else self.coerce(value)`. -/
def dbValue (k : FieldKind) (v : PyVal) : PyVal :=
  match v with
  | .none => .none
  | v => coerceVal k v

/-- The data of a `Table` object (peewee `Table.__init__`): name, optional
schema, optional alias, declared columns, and — for tables produced by
`Metadata.table` — the owning model's name. -/
structure TableDef where
  name : String
  schema : Option String := Option.none
  tblAlias : Option String := Option.none
  columns : List String := []
  modelName : Option String := Option.none
deriving DecidableEq, Repr

/-- `Table._path`: `(schema, name) if schema else (name,)`. -/
def TableDef.path (t : TableDef) : List String :=
  match t.schema with
  | some s => [s, t.name]
  | Option.none => [t.name]

/-- The data of a bound `Field` object that rendering and sorting consume:
`name`, `column_name`, its coercion behaviour, `primary_key`, the global
declaration counter value `_order`, and the model's table (`Field.column`
renders `Column(self.model._meta.table, self.column_name)`). -/
structure FieldDef where
  name : String
  columnName : String
  kind : FieldKind := .default
  primaryKey : Bool := false
  order : Nat := 0
  table : TableDef
deriving DecidableEq, Repr

/-! ## SQL generation: State, Context, AliasManager

Translated from `AliasManager`, `State`, `Context` in `src/peewee.py`. -/

/-- Scope constants (`SCOPE_NORMAL` … `SCOPE_COLUMN`). -/
def SCOPE_NORMAL : Nat := 1
def SCOPE_SOURCE : Nat := 2
def SCOPE_VALUES : Nat := 4
def SCOPE_CTE : Nat := 8
def SCOPE_COLUMN : Nat := 16

/-- The `settings` dictionary carried by a `State`.  Only the keys read by
the rendering paths of the claims are represented; a missing key reads as
`None`, exactly like `settings.get(attr)` in `State.__getattr__`.
The `converter` entry holds the `FieldKind` whose `dbValue` is the stored
bound method `lhs.db_value`. -/
structure Settings where
  param : Option String := Option.none
  quote : Option String := Option.none
  operations : Option (List (String × String)) := Option.none
  converter : Option FieldKind := Option.none
  limitMax : Option Int := Option.none
  forUpdate : Option Bool := Option.none
deriving DecidableEq, Repr

/-- `State`: scope, parentheses, subquery plus the settings dict. -/
structure SqlState where
  scope : Nat := SCOPE_NORMAL
  parentheses : Bool := false
  subquery : Bool := false
  settings : Settings := {}
deriving DecidableEq, Repr

/-- Keys of the alias-manager mapping.  A peewee `Table` hashes and compares
as `(class, path, alias, model)` (`Table._get_hash`), a `SelectBase` as its
alias or object id (`SelectBase._get_hash`). -/
inductive AMKey where
  | table (path : List String) (al : Option String) (model : Option String)
  | query (id : Nat)
deriving DecidableEq, Repr

/-- The alias-manager key of a table. -/
def TableDef.amKey (t : TableDef) : AMKey :=
  .table t.path t.tblAlias t.modelName

/-- Association-list update with Python `dict` semantics: overwrite an
existing key in place, otherwise append. -/
def dictSet (l : List (AMKey × String)) (k : AMKey) (v : String) :
    List (AMKey × String) :=
  if (l.lookup k).isSome then
    l.map (fun p => if p.1 = k then (k, v) else p)
  else l ++ [(k, v)]

/-- `AliasManager`: monotone counter, current depth, and the stack of
mappings (which is never truncated by `pop`, exactly as in the source). -/
structure AliasManager where
  counter : Nat := 0
  currentIndex : Nat := 1
  mapping : List (List (AMKey × String)) := [[]]
deriving DecidableEq, Repr

/-- The mapping at the current depth (`AliasManager.mapping` property). -/
def AliasManager.current (am : AliasManager) : List (AMKey × String) :=
  am.mapping.getD (am.currentIndex - 1) []

/-- `AliasManager.add`: assign `t<counter>` to an unseen source, return the
alias assigned to the source. -/
def AliasManager.add (am : AliasManager) (k : AMKey) : String × AliasManager :=
  match (am.current.lookup k) with
  | some a => (a, am)
  | Option.none =>
    let c := am.counter + 1
    let a := "t" ++ toString c
    (a, { am with
          counter := c,
          mapping := am.mapping.set (am.currentIndex - 1)
                       (dictSet am.current k a) })

/-- `AliasManager.__setitem__`. -/
def AliasManager.setItem (am : AliasManager) (k : AMKey) (v : String) :
    AliasManager :=
  { am with mapping := am.mapping.set (am.currentIndex - 1)
                         (dictSet am.current k v) }

/-- `AliasManager.push`. -/
def AliasManager.push (am : AliasManager) : AliasManager :=
  let idx := am.currentIndex + 1
  { am with
    currentIndex := idx,
    mapping := if am.mapping.length < idx then am.mapping ++ [[]]
               else am.mapping }

/-- `AliasManager.pop` (the mapping itself is retained). -/
def AliasManager.pop (am : AliasManager) : AliasManager :=
  { am with currentIndex := am.currentIndex - 1 }

/-- The `Context`: state stack, accumulated SQL fragments (`_sql`),
accumulated parameters (`_values`) and the alias manager. -/
structure Ctx where
  stack : List SqlState := []
  state : SqlState := {}
  sqlAcc : List String := []
  values : List PyVal := []
  aliasManager : AliasManager := {}
deriving DecidableEq, Repr

/-- `Context.literal`. -/
def Ctx.literal (c : Ctx) (s : String) : Ctx :=
  { c with sqlAcc := c.sqlAcc ++ [s] }

/-- `Context.value`: default the converter from the state, apply it if
present, append the parameter. -/
def Ctx.value (c : Ctx) (v : PyVal) (converter : Option FieldKind) : Ctx :=
  let conv := match converter with
    | some k => some k
    | Option.none => c.state.settings.converter
  let v := match conv with
    | some k => dbValue k v
    | Option.none => v
  { c with values := c.values ++ [v] }

/-- The keyword overrides passed to `Context.__call__`/`State.__call__`.
`converter = some k` models `kwargs` containing the key `'converter'` with
value `k`; `none` models the key being absent. -/
structure Overrides where
  scope : Option Nat := Option.none
  parentheses : Option Bool := Option.none
  subquery : Option Bool := Option.none
  converter : Option (Option FieldKind) := Option.none

/-- `Context.__call__` followed by `State.__call__`.  Note the faithful
modelling of the in-place `settings.update(kwargs)`: when `kwargs` carries a
converter the *parent* state's settings dictionary is mutated as well, so the
parent pushed onto the stack already holds the override (this is the source
of the converter "leak" to later siblings). Scope and subquery are
inherited; parentheses are not (`None` reads as `False`). -/
def Ctx.push (c : Ctx) (o : Overrides) : Ctx :=
  let settings := match o.converter with
    | some k => { c.state.settings with converter := k }
    | Option.none => c.state.settings
  let parent := { c.state with settings := settings }
  { c with
    stack := c.stack ++ [parent],
    state := { scope := o.scope.getD c.state.scope,
               parentheses := o.parentheses.getD false,
               subquery := o.subquery.getD c.state.subquery,
               settings := settings } }

/-- `Context.__enter__`: open parenthesis if the new state asks for one. -/
def Ctx.enter (c : Ctx) : Ctx :=
  if c.state.parentheses then c.literal "(" else c

/-- `Context.__exit__`: close parenthesis, then pop the state stack. -/
def Ctx.exit (c : Ctx) : Ctx :=
  let c := if c.state.parentheses then c.literal ")" else c
  { c with state := c.stack.getLastD c.state, stack := c.stack.dropLast }

/-- `Context.query()`: join the fragments, return them with the params. -/
def Ctx.query (c : Ctx) : String × List PyVal :=
  (String.join c.sqlAcc, c.values)

/-- The module-level `quote(path, quote_char)` helper. -/
def quotePath (path : List String) (q : String) : String :=
  match path with
  | [p] => q ++ p ++ q
  | ps => String.intercalate "." (ps.map (fun p => q ++ p ++ q))

/-- `part.replace('"', '""')` from `Entity.__init__`: double every
double-quote character. -/
def escapeQuotes (s : String) : String :=
  String.mk (s.data.foldr
    (fun ch acc => if ch = '"' then '"' :: '"' :: acc else ch :: acc) [])

/-- `Entity.__init__`: drop empty components, escape the quote character by
doubling it. -/
def mkEntityPath (path : List String) : List String :=
  (path.filter (fun p => p ≠ "")).map escapeQuotes

/-- `ctx.state.quote or '"'` (as used by `Entity.__sql__`). -/
def Ctx.quoteChar (c : Ctx) : String :=
  c.state.settings.quote.getD "\""

/-- `Entity.__sql__`: `ctx.literal(quote(self._path, ctx.state.quote or '"'))`. -/
def renderEntity (path : List String) (c : Ctx) : Ctx :=
  c.literal (quotePath (mkEntityPath path) c.quoteChar)

/-- `Source.apply_alias` (for a `Table`, `self` is the table): in SOURCE
scope emit ` AS "<alias>"`, registering the explicit alias first if any. -/
def applyAlias (key : AMKey) (anAlias : Option String) (c : Ctx) : Ctx :=
  if c.state.scope = SCOPE_SOURCE then
    let c := match anAlias with
      | some a => { c with aliasManager := c.aliasManager.setItem key a }
      | Option.none => c
    let (a, am) := c.aliasManager.add key
    renderEntity [a] (({ c with aliasManager := am }).literal " AS ")
  else c

/-- `Source.apply_column`: register the explicit alias if any, then render
the entity for the source's alias. -/
def applyColumn (key : AMKey) (anAlias : Option String) (c : Ctx) : Ctx :=
  let c := match anAlias with
    | some a => { c with aliasManager := c.aliasManager.setItem key a }
    | Option.none => c
  let (a, am) := c.aliasManager.add key
  renderEntity [a] { c with aliasManager := am }

/-- `Table.__sql__`. -/
def renderTable (t : TableDef) (c : Ctx) : Ctx :=
  if c.state.scope = SCOPE_VALUES then
    renderEntity t.path c
  else
    let c := match t.tblAlias with
      | some a => { c with aliasManager := c.aliasManager.setItem t.amKey a }
      | Option.none => c
    if c.state.scope = SCOPE_SOURCE then
      applyAlias t.amKey t.tblAlias (renderEntity t.path c)
    else
      applyColumn t.amKey t.tblAlias c

/-- `Column.__sql__`: bare entity in VALUES scope, otherwise
`source.alias` `.` `name` rendered under `scope_column`. -/
def renderColumn (src : TableDef) (name : String) (c : Ctx) : Ctx :=
  if c.state.scope = SCOPE_VALUES then
    renderEntity [name] c
  else
    let c := (c.push { scope := some SCOPE_COLUMN }).enter
    let c := renderEntity [name] ((renderTable src c).literal ".")
    c.exit

/-! ## SQL generation: the AST and the renderer

`PNode` is the AST node type.  `flat` of an `Expression` is *object state*
(mutated in place by `NodeList.__init__`), so expression nodes carry an
object id and the current flat flags live in a `FlatStore` heap threaded
through rendering. -/

mutual
/-- AST nodes (`Entity`, `Value`, `SQL`, `Column`, `Table`, `Field`,
`Expression`, `NodeList`, `Function`).  `param` is a non-multi `Value`
(multi values are expanded into an enclosed node list at construction, see
`mkValue`); `sqlLit` is a `SQL` node whose params are plain values. -/
inductive PNode where
  | entity (path : List String)
  | param (v : PyVal) (converter : Option FieldKind)
  | sqlLit (sql : String) (params : List PyVal)
  | column (source : TableDef) (name : String)
  | table (t : TableDef)
  | field (f : FieldDef)
  | expr (id : Nat) (lhs : PNode) (op : String) (rhs : PNode)
  | nodeList (nodes : PNodes) (glue : String) (parens : Bool)
  | fnCall (name : String) (args : PNodes)
deriving Repr

/-- A list of AST nodes (separate type so the renderer can recurse
structurally). -/
inductive PNodes where
  | nil
  | cons (head : PNode) (tail : PNodes)
deriving Repr
end

/-- Convert a Lean list of nodes into `PNodes`. -/
def PNodes.ofList : List PNode → PNodes
  | [] => .nil
  | n :: rest => .cons n (PNodes.ofList rest)

/-- Length of a `PNodes`. -/
def PNodes.length : PNodes → Nat
  | .nil => 0
  | .cons _ t => t.length + 1

/-- The heap of `Expression.flat` flags, keyed by expression object id. -/
def FlatStore : Type := Nat → Bool

/-- Write `flat = True` on one expression object
(`self.nodes[0].flat = True` in `NodeList.__init__`). -/
def markFlat (s : FlatStore) (i : Nat) : FlatStore :=
  fun j => if j = i then true else s j

/-- `NodeList.__init__`: when parenthesized around a single `Expression`,
mutate that expression's `flat` to `True` ("hack to avoid
double-parentheses"). -/
def nodeListInit (nodes : PNodes) (parens : Bool) (s : FlatStore) : FlatStore :=
  if parens then
    match nodes with
    | .cons (.expr i _ _ _) .nil => markFlat s i
    | _ => s
  else s

/-- `OP`: the operation-name → operator table (`attrdict` in the source). -/
def OP_TABLE : List (String × String) :=
  [("AND", "AND"), ("OR", "OR"), ("ADD", "+"), ("SUB", "-"), ("MUL", "*"),
   ("DIV", "/"), ("BIN_AND", "&"), ("BIN_OR", "|"), ("XOR", "#"),
   ("MOD", "%"), ("EQ", "="), ("LT", "<"), ("LTE", "<="), ("GT", ">"),
   ("GTE", ">="), ("NE", "!="), ("IN", "IN"), ("NOT_IN", "NOT IN"),
   ("IS", "IS"), ("IS_NOT", "IS NOT"), ("LIKE", "LIKE"),
   ("ILIKE", "ILIKE"), ("BETWEEN", "BETWEEN"), ("REGEXP", "REGEXP"),
   ("CONCAT", "||")]

/-- `OP.IN`. -/
def OP_IN : String := "IN"

/-- String-keyed dictionary update (Python `dict.update` step). -/
def strDictSet (l : List (String × String)) (k v : String) :
    List (String × String) :=
  if (l.lookup k).isSome then
    l.map (fun p => if p.1 = k then (k, v) else p)
  else l ++ [(k, v)]

/-- `merge_dict(source, overrides)`. -/
def mergeDict (base overrides : List (String × String)) :
    List (String × String) :=
  overrides.foldl (fun acc p => strDictSet acc p.1 p.2) base

mutual
/-- `Node.__sql__` dispatch: renders one node into the context, threading
the flat-flag heap.  Each case is translated from the corresponding
`__sql__` method in the source. -/
def renderNode (n : PNode) (c : Ctx) (s : FlatStore) : Ctx × FlatStore :=
  match n, c, s with
  | .entity path, c, s => (renderEntity path c, s)
  | .param v conv, c, s =>
      -- Value.__sql__, non-multi branch:
      -- ctx.literal(ctx.state.param or '?').value(self.value, self.converter)
      ((c.literal (c.state.settings.param.getD "?")).value v conv, s)
  | .sqlLit sql params, c, s =>
      -- SQL.__sql__ with plain (non-Node) params.
      (params.foldl (fun acc p => acc.value p Option.none) (c.literal sql), s)
  | .column src name, c, s => (renderColumn src name c, s)
  | .table t, c, s => (renderTable t c, s)
  | .field f, c, s =>
      -- Field.__sql__: ctx.sql(self.column), where
      -- column = Column(self.model._meta.table, self.column_name).
      (renderColumn f.table f.columnName c, s)
  | .expr i lhs op rhs, c, s =>
      -- Expression.__sql__.
      let flat := s i
      let convOverride : Option FieldKind :=
        match lhs with
        | .field f => some f.kind    -- overrides['converter'] = self.lhs.db_value
        | _ => Option.none           -- overrides['converter'] = None
      let opSql := match c.state.settings.operations with
        | some ops => (ops.lookup op).getD op
        | Option.none => op
      let c1 := (c.push { parentheses := some (!flat),
                          converter := some convOverride }).enter
      if op = OP_IN then
        -- if self.op == OP.IN and not Context().sql(self.rhs).query()[0]:
        let (probe, s') := renderNode rhs {} s
        if String.join probe.sqlAcc = "" then
          (((c1.literal "0 = 1")).exit, s')
        else
          let (c2, s2) := renderNode lhs c1 s'
          let (c3, s3) := renderNode rhs (c2.literal (" " ++ opSql ++ " ")) s2
          (c3.exit, s3)
      else
        let (c2, s2) := renderNode lhs c1 s
        let (c3, s3) := renderNode rhs (c2.literal (" " ++ opSql ++ " ")) s2
        (c3.exit, s3)
  | .nodeList nodes glue parens, c, s =>
      -- NodeList.__sql__ with zero nodes returns the context unchanged
      -- (note: before entering the parenthesized state).  Otherwise enter a
      -- state with the list's parenthesization, render the glue-joined
      -- nodes, exit.
      match nodes with
      | .nil => (c, s)
      | nodes =>
        let c1 := (c.push { parentheses := some parens }).enter
        let (c2, s2) := renderNodes nodes glue c1 s
        (c2.exit, s2)
  | .fnCall name args, c, s =>
      -- Function.__sql__: literal name, then '()' or the wrapped argument
      -- list.  The wrapper node list is *constructed at render time*, so
      -- NodeList.__init__ (and its flat-mutation) runs on every render.
      -- (The single-sub-query special case is vacuous here: modeled selects
      -- never appear as function arguments, so the wrapper is always
      -- EnclosedNodeList.)  The body of NodeList.__sql__ is inlined below.
      let c1 := c.literal name
      match args with
      | .nil => (c1.literal "()", s)
      | args =>
        let s1 := nodeListInit args true s
        let c2 := (c1.push { parentheses := some true }).enter
        let (c3, s2) := renderNodes args ", " c2 s1
        (c3.exit, s2)
termination_by structural n

/-- The glue-joined loop of `NodeList.__sql__`:
`sql(node_0) glue sql(node_1) glue … sql(node_last)`. -/
def renderNodes (ns : PNodes) (glue : String) (c : Ctx) (s : FlatStore) :
    Ctx × FlatStore :=
  match ns, glue, c, s with
  | .nil, _, c, s => (c, s)
  | .cons n .nil, _, c, s => renderNode n c s
  | .cons n rest, glue, c, s =>
      let (c1, s1) := renderNode n c s
      renderNodes rest glue (c1.literal glue) s1
termination_by structural ns
end

/-- `Value.__init__` plus `Context.sql`'s scalar wrapping: a sequence with
`unpack=True` becomes a multi value, i.e. an enclosed node list of `Value`
items sharing the converter (the modeled fragment only uses flat
sequences); anything else is a plain parameter node. -/
def mkValue (v : PyVal) (conv : Option FieldKind) : PNode :=
  match v with
  | .pylist items =>
      .nodeList (PNodes.ofList (items.map (fun l => .param l.val conv)))
        ", " true
  | v => .param v conv

/-! ## SQL generation: the Select builder

Translated from `Select.__sql__` / `Query._apply_ordering` in the source.
The builder below covers the fragment the claims exercise: `_windows`,
`_for_update` and `_cte_list` are `None`, so their rendering branches —
which the source skips when they are unset — are omitted, and the modeled
select is rendered as a top-level statement (never as a sub-query column
reference, so the `SCOPE_COLUMN` shortcut is included but vacuous). -/

/-- A `Select` query builder (`ModelSelect` / `Select`): from list,
projection (`_returning`), where, group by, having, distinct, order by,
limit, offset, plus the select's own alias data used by
`apply_alias`/`apply_column` (`_HashableSource`). -/
structure SelectQ where
  selfId : Nat := 0
  selfAlias : Option String := Option.none
  fromList : List TableDef := []
  returning : List PNode := []
  whereE : Option PNode := Option.none
  groupBy : List PNode := []
  having : Option PNode := Option.none
  distinctSimple : Bool := false
  distinctOn : Option (List PNode) := Option.none
  orderBy : List PNode := []
  limit : Option Int := Option.none
  offset : Option Int := Option.none

/-- Python `or` on optional ints (`self._limit or ctx.state.limit_max`). -/
def pyOrInt (a b : Option Int) : Option Int :=
  match a with
  | some i => if i ≠ 0 then some i else b
  | Option.none => b

/-- Truthiness of an optional int (`ctx.state.limit_max` used as a
condition; note SQLite's `limit_max = -1` is truthy). -/
def truthyOptInt : Option Int → Bool
  | some i => i != 0
  | Option.none => false

/-- `'%d' % v` (the `None` case would raise in Python and is unreachable in
the modeled uses). -/
def formatInt : Option Int → String
  | some i => toString i
  | Option.none => "None"

/-- `Query._apply_ordering`: ORDER BY (a comma node list built at render
time), LIMIT (falling back to `limit_max` when only OFFSET is set and
`limit_max` is truthy), OFFSET. -/
def applyOrdering (q : SelectQ) (c : Ctx) (s : FlatStore) : Ctx × FlatStore :=
  let (c, s) :=
    if q.orderBy.length ≠ 0 then
      renderNode (.nodeList (PNodes.ofList q.orderBy) ", " false)
        (c.literal " ORDER BY ") s
    else (c, s)
  let c :=
    if q.limit.isSome ∨ (q.offset.isSome ∧ truthyOptInt c.state.settings.limitMax) then
      c.literal (" LIMIT " ++ formatInt (pyOrInt q.limit c.state.settings.limitMax))
    else c
  let c := match q.offset with
    | some o => c.literal (" OFFSET " ++ toString o)
    | Option.none => c
  (c, s)

/-- `Select.__sql__` (including the `Query.__sql__` super call, whose CTE
branch is skipped because `_cte_list` is `None` in the modeled fragment). -/
def renderSelect (q : SelectQ) (c : Ctx) (s : FlatStore) : Ctx × FlatStore :=
  if c.state.scope = SCOPE_COLUMN then
    (applyColumn (.query q.selfId) q.selfAlias c, s)
  else
    let isSubquery := c.state.subquery
    let parens := isSubquery ∨ c.state.scope = SCOPE_SOURCE
    -- with ctx.scope_normal(converter=None, parentheses=parens, subquery=True)
    let c1 := (c.push { scope := some SCOPE_NORMAL,
                        parentheses := some parens,
                        subquery := some true,
                        converter := some Option.none }).enter
    let c2 := c1.literal "SELECT "
    let (c2, s) :=
      if q.distinctSimple ∨ q.distinctOn.isSome then
        let c2 := c2.literal "DISTINCT "
        match q.distinctOn with
        | some dl =>
          if dl.length ≠ 0 then
            -- EnclosedNodeList(self._distinct), built at render time, so
            -- NodeList.__init__ runs here.
            let nodes := PNodes.ofList dl
            let s := nodeListInit nodes true s
            let (c3, s) := renderNode (.nodeList nodes ", " true)
              (c2.literal "ON ") s
            (c3.literal " ", s)
          else (c2, s)
        | Option.none => (c2, s)
      else (c2, s)
    -- with ctx.scope_source(): ctx = self.__sql_selection__(ctx)
    let c3 := (c2.push { scope := some SCOPE_SOURCE }).enter
    let (c4, s) := renderNode (.nodeList (PNodes.ofList q.returning) ", " false) c3 s
    let c5 := c4.exit
    -- FROM clause
    let (c6, s) :=
      if q.fromList.length ≠ 0 then
        let c5b := (c5.push { scope := some SCOPE_SOURCE,
                              parentheses := some false }).enter
        let (cx, s) := renderNode
          (.nodeList (PNodes.ofList (q.fromList.map PNode.table)) ", " false)
          (c5b.literal " FROM ") s
        (cx.exit, s)
      else (c5, s)
    -- WHERE clause
    let (c7, s) := match q.whereE with
      | some w => renderNode w (c6.literal " WHERE ") s
      | Option.none => (c6, s)
    -- GROUP BY clause
    let (c8, s) :=
      if q.groupBy.length ≠ 0 then
        renderNode (.nodeList (PNodes.ofList q.groupBy) ", " false)
          (c7.literal " GROUP BY ") s
      else (c7, s)
    -- HAVING clause
    let (c9, s) := match q.having with
      | some h => renderNode h (c8.literal " HAVING ") s
      | Option.none => (c8, s)
    -- ORDER BY / LIMIT / OFFSET
    let (c10, s) := applyOrdering q c9 s
    let c11 := c10.exit
    (applyAlias (.query q.selfId) q.selfAlias c11, s)

/-! ## The SQLite dialect context

`SqliteDatabase.get_context_options` merged over `Database.__init__`:
parameter marker `?`, quote `"`, the `OP` table with SQLite's
`LIKE → GLOB` / `ILIKE → LIKE` remap, `limit_max = -1`,
`for_update = False`. -/

/-- `merge_dict(OP, SqliteDatabase.operations)`. -/
def sqliteOperations : List (String × String) :=
  mergeDict OP_TABLE [("LIKE", "GLOB"), ("ILIKE", "LIKE")]

/-- The settings of a fresh SQLite rendering context. -/
def sqliteSettings : Settings :=
  { param := some "?", quote := some "\"",
    operations := some sqliteOperations,
    limitMax := some (-1), forUpdate := some false }

/-- A fresh SQLite `Context` (fresh alias manager). -/
def sqliteCtx : Ctx := { state := { settings := sqliteSettings } }

/-- The all-clear flat heap (every expression object was built with
`flat=False`, which is what every claim's builder does). -/
def freshFlats : FlatStore := fun _ => false

/-! ## The `User` model of claim C1

`User(id AUTO pk, name VARCHAR)`: the metaclass adds the `AutoField` primary
key first; `Metadata.table` builds `Table('user', ['id', 'name'],
_model=User)`; `User.select()` projects `sorted_fields`, i.e. `id` then
`name`. -/

/-- `User._meta.table`. -/
def userTable : TableDef :=
  { name := "user", columns := ["id", "name"], modelName := some "User" }

/-- `User.id`, the `AutoField` primary key (`IntegerField.coerce = int`). -/
def userIdField : FieldDef :=
  { name := "id", columnName := "id", kind := .int, primaryKey := true,
    order := 1, table := userTable }

/-- `User.name`, the `CharField` (`_StringField.coerce`). -/
def userNameField : FieldDef :=
  { name := "name", columnName := "name", kind := .string, order := 2,
    table := userTable }

/-- `User.select().where(User.name == "ada").order_by(User.id)`:
`User.name == "ada"` is `Expression(User.name, OP.EQ, "ada")` whose raw
right side is wrapped as a `Value` by `Context.sql`. -/
def c1Query : SelectQ :=
  { fromList := [userTable],
    returning := [.field userIdField, .field userNameField],
    whereE := some (.expr 1 (.field userNameField) "="
                     (mkValue (.str "ada") Option.none)),
    orderBy := [.field userIdField] }

/-- The builder used to refute claim C5: the same `Expression` *object*
(id 1) appears both in the WHERE clause and as the single argument of a
function in the ORDER BY clause.  At the first render the WHERE clause still
sees `flat = False`, then `Function.__sql__` wraps the expression in an
`EnclosedNodeList`, whose `__init__` sets `flat = True` in place; the second
render of the same builder therefore omits the WHERE parentheses. -/
def c5SharedExpr : PNode :=
  .expr 1 (.field userNameField) "=" (mkValue (.str "a") Option.none)

/-- `User.select(User.id).where(e).order_by(fn.FOO(e))` with `e` shared. -/
def c5Builder : SelectQ :=
  { fromList := [userTable],
    returning := [.field userIdField],
    whereE := some c5SharedExpr,
    orderBy := [.fnCall "FOO" (.cons c5SharedExpr .nil)] }

/-! ## Multi-row INSERT (`Insert._multi_insert`)

Rows are modeled as string-keyed mappings (association lists), which is the
shape produced by `insert_many` with dict rows; `getattr(self.table, key)`
on a `Table` that declares its columns yields the `Column` attribute set in
`Table.__init__`. -/

/-- A column reference inside an INSERT: a bound model `Field`, or a plain
table `Column` (`getattr(self.table, key)` for a string key). -/
inductive InsCol where
  | field (f : FieldDef)
  | column (t : TableDef) (name : String)
deriving DecidableEq, Repr

/-- What `value_lookups` maps a column to: the original string key of the
first row (inferred-columns branch), or the column object itself
(explicit-columns branch: `value_lookups = dict((c, c) for c in columns)`). -/
inductive RowKey where
  | str (s : String)
  | col (c : InsCol)
deriving DecidableEq, Repr

/-- `row[key]`: a string-keyed mapping row looked up with a `RowKey`.  A
column *object* is never a key of a string-keyed mapping, so that lookup
misses (Python raises `KeyError`). -/
def rowGet (row : List (String × PyVal)) : RowKey → Option PyVal
  | .str s => row.lookup s
  | .col _ => Option.none

/-- Codepoint comparison of character lists (Python string `<`). -/
def charListLt : List Char → List Char → Bool
  | [], [] => false
  | [], _ :: _ => true
  | _ :: _, [] => false
  | a :: as, b :: bs =>
      if a.val < b.val then true
      else if b.val < a.val then false
      else charListLt as bs

/-- Python `str < str`. -/
def strLt (a b : String) : Bool := charListLt a.data b.data

/-- Stable insertion into a sorted list: the new element goes after all
strictly smaller elements and before equal ones (Python's `sorted` is
stable). -/
def insertStable (lt : α → α → Bool) (x : α) : List α → List α
  | [] => [x]
  | y :: ys => if lt y x then y :: insertStable lt x ys else x :: y :: ys

/-- Stable sort (models `sorted(..., key=...)`). -/
def stableSort (lt : α → α → Bool) : List α → List α
  | [] => []
  | x :: xs => insertStable lt x (stableSort lt xs)

/-- `column.db_value if isinstance(column, Field) else None`
(from `columns_converters` in `_multi_insert`). -/
def InsCol.converter : InsCol → Option FieldKind
  | .field f => some f.kind
  | .column _ _ => Option.none

/-- The AST node a column renders as inside the column list. -/
def InsCol.toNode : InsCol → PNode
  | .field f => .field f
  | .column t n => .column t n

/-- The inner loop of `_multi_insert` over one row: for each
`(column, converter)` pair look the column up in `value_lookups`, then look
the resulting key up in the row; a missing key is Python's `KeyError`.
Found values are wrapped as `Value(val, converter=converter, unpack=False)`. -/
def buildRowValues (colsConv : List (InsCol × Option FieldKind))
    (valueLookups : List (InsCol × RowKey))
    (row : List (String × PyVal)) : Except String (List PNode) :=
  match colsConv with
  | [] => .ok []
  | (col, conv) :: rest =>
    match valueLookups.lookup col with
    | Option.none => .error "KeyError"
    | some rk =>
      match rowGet row rk with
      | Option.none => .error "KeyError"
      | some val =>
        match buildRowValues rest valueLookups row with
        | .error e => .error e
        | .ok vs => .ok (.param val conv :: vs)

/-- The outer loop of `_multi_insert` over the rows, accumulating one
`EnclosedNodeList` per row. -/
def buildAllValues (colsConv : List (InsCol × Option FieldKind))
    (valueLookups : List (InsCol × RowKey))
    (rows : List (List (String × PyVal))) : Except String (List PNode) :=
  match rows with
  | [] => .ok []
  | row :: rest =>
    match buildRowValues colsConv valueLookups row with
    | .error e => .error e
    | .ok vs =>
      match buildAllValues colsConv valueLookups rest with
      | .error e => .error e
      | .ok vss => .ok (.nodeList (PNodes.ofList vs) ", " true :: vss)

/-- `Insert._multi_insert`.  When no explicit columns are given they are
inferred from the first row: each string key becomes
`getattr(self.table, key)`, i.e. the table's `Column`, and the columns are
then sorted by `get_sort_key(ctx)` — under the `SCOPE_VALUES` state that
`Insert.__sql__` installs, a column's sort key is `(column_name,)`, so the
sort is by name.  Subsequent rows are indexed with `row[value_lookups[col]]`
with no default: a missing key is a `KeyError`, not a NULL.
The node lists built here contain only `Column`/`Field`/`Value` nodes, never
a lone `Expression`, so the flat-flag writes of `NodeList.__init__` are
no-ops and the flat heap is left implicit. -/
def multiInsert (tbl : TableDef) (cols : List InsCol)
    (rows : List (List (String × PyVal))) (c : Ctx) (s : FlatStore) :
    Except String (Ctx × FlatStore) :=
  let inferred : Except String (List InsCol × List (InsCol × RowKey) ×
                                List (List (String × PyVal))) :=
    if cols.isEmpty then
      match rows with
      | [] => .error "DefaultValuesException"
      | row :: rest =>
        let accum := row.map (fun kv => InsCol.column tbl kv.1)
        let valueLookups := row.map
          (fun kv => (InsCol.column tbl kv.1, RowKey.str kv.1))
        let columns := stableSort
          (fun a b => match a, b with
            | .column _ m, .column _ n => strLt m n
            | _, _ => false) accum
        .ok (columns, valueLookups, row :: rest)
    else
      .ok (cols, cols.map (fun col => (col, RowKey.col col)), rows)
  match inferred with
  | .error e => .error e
  | .ok (columns, valueLookups, allRows) =>
    let (c1, s1) := renderNode
      (.nodeList (PNodes.ofList (columns.map InsCol.toNode)) ", " true) c s
    let c2 := c1.literal " VALUES "
    let colsConv := columns.map (fun col => (col, col.converter))
    match buildAllValues colsConv valueLookups allRows with
    | .error e => .error e
    | .ok allValues =>
      let (c3, s3) := renderNode
        (.nodeList (PNodes.ofList allValues) ", " false) c2 s1
      .ok (c3, s3)

/-! ## Reference graph (`Metadata.add_ref` / `Metadata.remove_ref`) -/

/-- A bound `ForeignKeyField`, as far as the reference graph is concerned:
its name and the name of the model it points at (`rel_model`). -/
structure FkField where
  name : String
  relModel : String
deriving DecidableEq, Repr

/-- The reference-graph slice of a model's `Metadata`: `refs`, `backrefs`
and the inverted indices `model_refs` / `model_backrefs` (defaultdicts of
lists). -/
structure MetaRefs where
  modelName : String
  refs : List (FkField × String) := []
  backrefs : List (FkField × String) := []
  modelRefs : List (String × List FkField) := []
  modelBackrefs : List (String × List FkField) := []
deriving DecidableEq, Repr

/-- `defaultdict(list)` append: `d[k].append(v)`. -/
def dlAppend (d : List (String × List FkField)) (k : String) (v : FkField) :
    List (String × List FkField) :=
  if (d.lookup k).isSome then
    d.map (fun p => if p.1 = k then (p.1, p.2 ++ [v]) else p)
  else d ++ [(k, [v])]

/-- `Metadata.add_ref(field)` on the owner's meta, with the target model's
meta passed explicitly (`rel._meta`).  Mutates both sides. -/
def addRef (owner target : MetaRefs) (f : FkField) : MetaRefs × MetaRefs :=
  let rel := f.relModel
  let owner := { owner with
    refs := owner.refs ++ [(f, rel)],
    modelRefs := dlAppend owner.modelRefs rel f }
  let target := { target with
    backrefs := target.backrefs ++ [(f, owner.modelName)],
    modelBackrefs := dlAppend target.modelBackrefs owner.modelName f }
  (owner, target)

/-- `Metadata.remove_ref(field)`.  The first statement,
`del self.refs[field]`, succeeds; the second statement reads
`self.model_ref[rel]` — but `Metadata.__init__` defines `model_refs`, not
`model_ref`, so Python raises
`AttributeError: 'Metadata' object has no attribute 'model_ref'` at that
point and the remaining three mappings are left untouched.  The result is
the partially-mutated pair of metas together with the raised error. -/
def removeRef (owner target : MetaRefs) (f : FkField) :
    (MetaRefs × MetaRefs) × Option String :=
  let owner := { owner with refs := owner.refs.filter (fun p => p.1 ≠ f) }
  ((owner, target),
   some "AttributeError: 'Metadata' object has no attribute 'model_ref'")

/-! ## Transactions (`_transaction`, `_savepoint`, `_atomic`)

`execAtomic` runs a nesting of `with db.atomic():` blocks over one
connection and records the connection-level operations (`_atomic` picks
`_transaction` when the per-thread transaction stack is empty and
`_savepoint` otherwise; note that in this source `_savepoint.__enter__`
does *not* push onto the transaction stack, so every frame nested inside
the outermost transaction is a savepoint at stack depth 1).
Savepoint names `s<uuid>` are modeled by a counter. -/

/-- Connection-level operations issued by the transaction machinery. -/
inductive TOp where
  | beginT
  | commitT
  | rollbackT
  | pushT
  | popT
  | savepointT (sid : Nat)
  | releaseT (sid : Nat)
  | rollbackToT (sid : Nat)
deriving DecidableEq, Repr

mutual
/-- One `with db.atomic():` block: its body is a sequence of nested blocks,
and `raises` says whether the body raises an exception after the nested
blocks complete. -/
inductive ABlock where
  | block (children : ABlocks) (raises : Bool)
/-- A sequence of blocks in one body. -/
inductive ABlocks where
  | nil
  | cons (b : ABlock) (t : ABlocks)
end

mutual
/-- Execute one atomic block at transaction-stack depth `depth` with
savepoint counter `ctr`.  Returns the operation trace, whether an exception
propagates out of the block, and the new counter. -/
def execAtomic (depth ctr : Nat) (b : ABlock) : List TOp × Bool × Nat :=
  match b with
  | .block children raises =>
    if depth = 0 then
      -- _atomic.__enter__ -> db.transaction() -> _transaction.__enter__:
      -- transaction_depth() == 0 so _begin(), then push_transaction(self).
      let enterOps := [TOp.beginT, TOp.pushT]
      let (bodyOps, bodyRaised, ctr') := execBody (depth + 1) ctr children
      let raised := bodyRaised || raises
      -- _transaction.__exit__: rollback on exception, commit when
      -- transaction_depth() == 1, and pop_transaction() in the finally.
      let exitOps :=
        if raised then [TOp.rollbackT, TOp.popT]
        else if depth + 1 = 1 then [TOp.commitT, TOp.popT]
        else [TOp.popT]
      (enterOps ++ bodyOps ++ exitOps, raised, ctr')
    else
      -- _atomic.__enter__ -> db.savepoint() -> _savepoint.__enter__:
      -- execute 'SAVEPOINT s<uuid>'; no transaction-stack push.
      let sid := ctr + 1
      let (bodyOps, bodyRaised, ctr') := execBody depth (ctr + 1) children
      let raised := bodyRaised || raises
      -- _savepoint.__exit__: 'ROLLBACK TO SAVEPOINT' on exception,
      -- 'RELEASE SAVEPOINT' on normal exit.
      let exitOps :=
        if raised then [TOp.rollbackToT sid] else [TOp.releaseT sid]
      (TOp.savepointT sid :: (bodyOps ++ exitOps), raised, ctr')

/-- Execute the blocks of a body in order; an exception raised by one block
propagates and skips the rest (the `with` statements of already-exited
blocks have completed). -/
def execBody (depth ctr : Nat) (bs : ABlocks) : List TOp × Bool × Nat :=
  match bs with
  | .nil => ([], false, ctr)
  | .cons b rest =>
    let (ops, raised, ctr') := execAtomic depth ctr b
    if raised then (ops, true, ctr')
    else
      let (ops2, raised2, ctr'') := execBody depth ctr' rest
      (ops ++ ops2, raised2, ctr'')
end

/-! ## Field ordering (`Field.__init__`, `_SortedFieldList`) -/

/-- The slice of a `Field` that its sort key depends on: `primary_key` and
the value the global `Field._field_counter` had when the field was
constructed (`self._order`). -/
structure SortField where
  primaryKey : Bool
  order : Nat
deriving DecidableEq, Repr

/-- `self._sort_key = (self.primary_key and 1 or 2), self._order`
(from `Field.__init__`). -/
def SortField.sortKey (f : SortField) : Nat × Nat :=
  ((if f.primaryKey then 1 else 2), f.order)

/-- Construct a sequence of fields, bumping the global counter once per
field exactly as `Field.__init__` does (`Field._field_counter += 1;
self._order = Field._field_counter`). -/
def mkFields (flags : List Bool) (ctr : Nat) : List SortField :=
  match flags with
  | [] => []
  | pk :: rest => { primaryKey := pk, order := ctr + 1 } :: mkFields rest (ctr + 1)

/-- Lexicographic order on sort keys (Python tuple `<`). -/
def keyLt (a b : Nat × Nat) : Bool :=
  if a.1 < b.1 then true
  else if a.1 = b.1 then decide (a.2 < b.2)
  else false

/-- `bisect_left` on a sorted key list: the index of the first element not
less than `k` (equivalently, on a sorted list, the number of elements
strictly less than `k`). -/
def bisectLeft (keys : List (Nat × Nat)) (k : Nat × Nat) : Nat :=
  match keys with
  | [] => 0
  | x :: xs => if keyLt x k then bisectLeft xs k + 1 else 0

/-- Python `list.insert(i, x)` (clamping, like the original). -/
def listInsertAt (l : List α) (i : Nat) (x : α) : List α :=
  match l, i with
  | l, 0 => x :: l
  | [], _ + 1 => [x]
  | y :: ys, n + 1 => y :: listInsertAt ys n x

/-- `_SortedFieldList`: the parallel `_keys` / `_items` lists. -/
structure SortedFieldList where
  keys : List (Nat × Nat) := []
  items : List SortField := []
deriving DecidableEq, Repr

/-- `_SortedFieldList.insert`. -/
def SortedFieldList.insert (l : SortedFieldList) (f : SortField) :
    SortedFieldList :=
  let k := f.sortKey
  let i := bisectLeft l.keys k
  { keys := listInsertAt l.keys i k,
    items := listInsertAt l.items i f }

/-- Insert a sequence of fields (one `add_field` call per field). -/
def insertAllFields (fs : List SortField) (l : SortedFieldList) :
    SortedFieldList :=
  match fs with
  | [] => l
  | f :: rest => insertAllFields rest (l.insert f)

/-! ## Prefetch (`prefetch`, `prefetch_add_subquery`, `PrefetchQuery`)

The claim's configuration: a root query over a parent model and one child
query over a model with a single `ForeignKeyField` `f` to the parent.
`prefetch_add_subquery` classifies the child as a *forward* relation
(`is_backref = False`, `fields = [f]`, `rel_models = [parent]`), and
`prefetch` executes `reversed(fixed_queries)` — the child query first, then
the root query — iterating each exactly once.

Parent and child instances are kept in arrays; Python attribute mutation
(`setattr`) becomes an indexed update.  `populate_instance` stores the
*parent instance itself* on the child's FK attribute, modeled as the
parent's index. -/

/-- A materialized parent row: its primary-key value, and the backref
attribute (`setattr(instance, field.backref, rel_instances)`), once set. -/
structure ParentInst where
  pk : PyVal
  backrefList : Option (List Nat) := Option.none
deriving DecidableEq, Repr

/-- A materialized child row: its FK attribute value
(`instance.__data__[field.name]`), and the parent instance reference set by
`setattr(inst, attname, instance)`, once set. -/
structure ChildInst where
  fkVal : PyVal
  parentRef : Option Nat := Option.none
deriving DecidableEq, Repr

/-- `Field.python_value` (same shape as `db_value` for the plain fields the
claim involves). -/
def pythonValue (k : FieldKind) (v : PyVal) : PyVal :=
  match v with
  | .none => .none
  | v => coerceVal k v

/-- The id map `deps[child_model]`: `(field, identifier) → [instances]`;
with a single FK field the field component is its name. -/
abbrev IdMap : Type := List ((String × PyVal) × List Nat)

/-- `PrefetchQuery.store_instance` for a forward relation: index the child
instance (by position `j`) under
`(field, field.rel_field.python_value(instance.__data__[attname]))`,
appending to the list (`id_map.setdefault(key, []); id_map[key].append`). -/
def storeInstance (fname : String) (identKind : FieldKind) (fk : PyVal)
    (j : Nat) (m : IdMap) : IdMap :=
  let key := (fname, pythonValue identKind fk)
  if (m.lookup key).isSome then
    m.map (fun p => if p.1 = key then (p.1, p.2 ++ [j]) else p)
  else m ++ [(key, [j])]

/-- Build the child id map by iterating the child query's rows in order. -/
def buildIdMap (fname : String) (identKind : FieldKind)
    (children : List ChildInst) : IdMap :=
  let rec go (j : Nat) (rest : List ChildInst) (m : IdMap) : IdMap :=
    match rest with
    | [] => m
    | ch :: rest => go (j + 1) rest (storeInstance fname identKind ch.fkVal j m)
  go 0 children []

/-- Indexed in-place update of a list element. -/
def listModify (l : List α) (i : Nat) (f : α → α) : List α :=
  match l, i with
  | [], _ => []
  | x :: xs, 0 => f x :: xs
  | x :: xs, n + 1 => x :: listModify xs n f

/-- `PrefetchQuery.populate_instance` for a forward relation, called on a
parent instance (index `i`): look up
`(field, instance.__data__[field.rel_field.name])` — the parent's pk — in
the id map; set each matched child's FK attribute to the parent instance;
set the parent's backref attribute to the matched list. -/
def populateInstance (fname : String) (i : Nat) (parent : ParentInst)
    (m : IdMap) (children : List ChildInst) : ParentInst × List ChildInst :=
  let key := (fname, parent.pk)
  let relInstances := (m.lookup key).getD []
  let children := relInstances.foldl
    (fun cs j => listModify cs j (fun ch => { ch with parentRef := some i }))
    children
  ({ parent with backrefList := some relInstances }, children)

/-- The root pass of `prefetch`: iterate the root query's rows in order,
populating each from the child id map. -/
def populateParents (fname : String) (i : Nat) (parents : List ParentInst)
    (m : IdMap) (children : List ChildInst) :
    List ParentInst × List ChildInst :=
  match parents with
  | [] => ([], children)
  | p :: rest =>
    let (p', children') := populateInstance fname i p m children
    let (rest', children'') := populateParents fname (i + 1) rest m children'
    (p' :: rest', children'')

/-- `prefetch(root_query, child_query)` for a root result set `R` (parent
pk values) and child result set `C` (child fk values) linked by the FK
`fname` whose referenced field has kind `identKind`.  Follows
`for pq in reversed(fixed_queries)`: the child pass stores every child row
into the id map, then the root pass populates every parent; each query is
iterated (executed) exactly once, recorded in the log by query position
(`1` = child query, `0` = root query). -/
def prefetchRun (rootRows childRows : List PyVal) (fname : String)
    (identKind : FieldKind) :
    List ParentInst × List ChildInst × List Nat :=
  let children := childRows.map (fun v => ({ fkVal := v } : ChildInst))
  let parents := rootRows.map (fun v => ({ pk := v } : ParentInst))
  -- child query executes first (one iteration = one execution)
  let idMap := buildIdMap fname identKind children
  -- then the root query executes, populating from deps[child_model]
  let (parents', children') := populateParents fname 0 parents idMap children
  (parents', children', [1, 0])

/-- The indices `j ≥ j0` (in ascending order) of the child rows whose
converted FK value (`rel_field.python_value`) equals `v`. -/
def matchingChildren (k : FieldKind) (j0 : Nat) (C : List PyVal) (v : PyVal) :
    List Nat :=
  match C with
  | [] => []
  | fk :: rest =>
    if pythonValue k fk = v then j0 :: matchingChildren k (j0 + 1) rest v
    else matchingChildren k (j0 + 1) rest v

/-- Default (placeholder) parent instance for indexed access. -/
def pDefault : ParentInst := { pk := .none }

/-- Default (placeholder) child instance for indexed access. -/
def cDefault : ChildInst := { fkVal := .none }

/-! ## Cursor wrapper (`CursorWrapper`) -/

/-- `CursorWrapper` state: the rows still unread in the driver cursor, the
number of rows consumed (`count`), whether the cursor was exhausted
(`populated`), and the row cache.  (`process_row` of the base class is the
identity.) -/
structure CursorW where
  cursorRows : List (List PyVal)
  count : Nat := 0
  populated : Bool := false
  rowCache : List (List PyVal) := []
deriving DecidableEq, Repr

/-- A freshly executed wrapper with no rows cached yet. -/
def freshCursor (rows : List (List PyVal)) : CursorW :=
  { cursorRows := rows }

/-- `CursorWrapper.iterate` (with caching): fetch one row; `None` marks the
wrapper populated and raises `StopIteration` (returned as `none` here). -/
def CursorW.iterate (w : CursorW) : Option (List PyVal) × CursorW :=
  match w.cursorRows with
  | [] => (Option.none, { w with populated := true })
  | r :: rest =>
    (some r, { w with cursorRows := rest, count := w.count + 1,
                      rowCache := w.rowCache ++ [r] })

/-- The `while not self.populated and (n > self.count)` loop of
`fill_cache`, with `n = none` standing for `float('Inf')`.  The fuel is a
termination measure only: each iteration either consumes a cursor row or
sets `populated` and stops, so `cursorRows.length + 1` steps always
suffice. -/
def fillCacheAux : Nat → CursorW → Option Nat → CursorW
  | 0, w, _ => w
  | fuel + 1, w, n =>
    if !w.populated && (match n with | some m => decide (w.count < m) | Option.none => true) then
      match w.iterate with
      | (Option.none, w') => w'      -- StopIteration: break
      | (some _, w') => fillCacheAux fuel w' n
    else w

/-- `CursorWrapper.fill_cache(n)`: `n = n or float('Inf')`, so `n = 0`
means "fill everything". -/
def CursorW.fillCache (w : CursorW) (n : Nat) : CursorW :=
  fillCacheAux (w.cursorRows.length + 1) w (if n = 0 then Option.none else some n)

/-- Python list indexing with negative-index wrap-around; `none` is
`IndexError`. -/
def pyIndex (l : List α) (i : Int) : Option α :=
  if 0 ≤ i then l.get? i.toNat
  else if (-i).toNat ≤ l.length then l.get? (l.length - (-i).toNat)
  else Option.none

/-- `CursorWrapper.__getitem__` for an integer index:
`self.fill_cache(item if item > 0 else 0)`, then `self.row_cache[item]`. -/
def CursorW.getItem (w : CursorW) (i : Int) : Except String (List PyVal × CursorW) :=
  let w := if 0 < i then w.fillCache i.toNat else w.fillCache 0
  match pyIndex w.rowCache i with
  | some r => .ok (r, w)
  | Option.none => .error "IndexError"

/-! # Theorems -/

/-! ## Context projection lemmas -/

@[simp] theorem literal_stack (c : Ctx) (t : String) : (c.literal t).stack = c.stack := rfl
@[simp] theorem literal_state (c : Ctx) (t : String) : (c.literal t).state = c.state := rfl
@[simp] theorem literal_values (c : Ctx) (t : String) : (c.literal t).values = c.values := rfl
@[simp] theorem literal_sqlAcc (c : Ctx) (t : String) : (c.literal t).sqlAcc = c.sqlAcc ++ [t] := rfl
@[simp] theorem literal_am (c : Ctx) (t : String) : (c.literal t).aliasManager = c.aliasManager := rfl

@[simp] theorem value_stack (c : Ctx) (v : PyVal) (k : Option FieldKind) : (c.value v k).stack = c.stack := rfl
@[simp] theorem value_state (c : Ctx) (v : PyVal) (k : Option FieldKind) : (c.value v k).state = c.state := rfl
@[simp] theorem value_sqlAcc (c : Ctx) (v : PyVal) (k : Option FieldKind) : (c.value v k).sqlAcc = c.sqlAcc := rfl
@[simp] theorem value_am (c : Ctx) (v : PyVal) (k : Option FieldKind) : (c.value v k).aliasManager = c.aliasManager := rfl

@[simp] theorem enter_stack (c : Ctx) : c.enter.stack = c.stack := by
  simp [Ctx.enter, apply_ite]
@[simp] theorem enter_state (c : Ctx) : c.enter.state = c.state := by
  simp [Ctx.enter, apply_ite]
@[simp] theorem enter_values (c : Ctx) : c.enter.values = c.values := by
  simp [Ctx.enter, apply_ite]
@[simp] theorem enter_am (c : Ctx) : c.enter.aliasManager = c.aliasManager := by
  simp [Ctx.enter, apply_ite]

@[simp] theorem exit_values (c : Ctx) : c.exit.values = c.values := by
  simp [Ctx.exit, apply_ite]
@[simp] theorem exit_state (c : Ctx) : c.exit.state = c.stack.getLastD c.state := by
  simp [Ctx.exit, apply_ite]
@[simp] theorem exit_stack (c : Ctx) : c.exit.stack = c.stack.dropLast := by
  simp [Ctx.exit, apply_ite]
@[simp] theorem exit_am (c : Ctx) : c.exit.aliasManager = c.aliasManager := by
  simp [Ctx.exit, apply_ite]

@[simp] theorem push_stack (c : Ctx) (o : Overrides) :
    (c.push o).stack = c.stack ++
      [{ c.state with settings := match o.converter with
          | some k => { c.state.settings with converter := k }
          | Option.none => c.state.settings }] := rfl
@[simp] theorem push_values (c : Ctx) (o : Overrides) : (c.push o).values = c.values := rfl
@[simp] theorem push_sqlAcc (c : Ctx) (o : Overrides) : (c.push o).sqlAcc = c.sqlAcc := rfl
@[simp] theorem push_am (c : Ctx) (o : Overrides) : (c.push o).aliasManager = c.aliasManager := rfl
@[simp] theorem push_state (c : Ctx) (o : Overrides) :
    (c.push o).state =
      { scope := o.scope.getD c.state.scope,
        parentheses := o.parentheses.getD false,
        subquery := o.subquery.getD c.state.subquery,
        settings := match o.converter with
          | some k => { c.state.settings with converter := k }
          | Option.none => c.state.settings } := rfl

@[simp] theorem renderEntity_stack (p : List String) (c : Ctx) : (renderEntity p c).stack = c.stack := rfl
@[simp] theorem renderEntity_state (p : List String) (c : Ctx) : (renderEntity p c).state = c.state := rfl
@[simp] theorem renderEntity_values (p : List String) (c : Ctx) : (renderEntity p c).values = c.values := rfl
@[simp] theorem renderEntity_am (p : List String) (c : Ctx) : (renderEntity p c).aliasManager = c.aliasManager := rfl

@[simp] theorem applyColumn_stack (k : AMKey) (a : Option String) (c : Ctx) :
    (applyColumn k a c).stack = c.stack := by
  unfold applyColumn ; cases a <;> simp
@[simp] theorem applyColumn_state (k : AMKey) (a : Option String) (c : Ctx) :
    (applyColumn k a c).state = c.state := by
  unfold applyColumn ; cases a <;> simp
@[simp] theorem applyColumn_values (k : AMKey) (a : Option String) (c : Ctx) :
    (applyColumn k a c).values = c.values := by
  unfold applyColumn ; cases a <;> simp

@[simp] theorem applyAlias_stack (k : AMKey) (a : Option String) (c : Ctx) :
    (applyAlias k a c).stack = c.stack := by
  unfold applyAlias ; split ; cases a <;> simp ; rfl
@[simp] theorem applyAlias_state (k : AMKey) (a : Option String) (c : Ctx) :
    (applyAlias k a c).state = c.state := by
  unfold applyAlias ; split ; cases a <;> simp ; rfl
@[simp] theorem applyAlias_values (k : AMKey) (a : Option String) (c : Ctx) :
    (applyAlias k a c).values = c.values := by
  unfold applyAlias ; split ; cases a <;> simp ; rfl

@[simp] theorem renderTable_stack (t : TableDef) (c : Ctx) : (renderTable t c).stack = c.stack := by
  unfold renderTable
  split
  · simp
  · cases t.tblAlias <;> simp <;> split <;> simp
@[simp] theorem renderTable_state (t : TableDef) (c : Ctx) : (renderTable t c).state = c.state := by
  unfold renderTable
  split
  · simp
  · cases t.tblAlias <;> simp <;> split <;> simp
@[simp] theorem renderTable_values (t : TableDef) (c : Ctx) : (renderTable t c).values = c.values := by
  unfold renderTable
  split
  · simp
  · cases t.tblAlias <;> simp <;> split <;> simp

@[simp] theorem renderColumn_stack (t : TableDef) (n : String) (c : Ctx) :
    (renderColumn t n c).stack = c.stack := by
  unfold renderColumn ; split ; simp ; simp
@[simp] theorem renderColumn_state (t : TableDef) (n : String) (c : Ctx) :
    (renderColumn t n c).state = c.state := by
  unfold renderColumn ; split ; simp ; simp [Ctx.push]
@[simp] theorem renderColumn_values (t : TableDef) (n : String) (c : Ctx) :
    (renderColumn t n c).values = c.values := by
  unfold renderColumn ; split ; simp ; simp

/-! ## C1 -/

/-- C1: rendering `User.select().where(User.name == "ada").order_by(User.id)`
under the SQLite dialect (param marker `?`, quote `"`, fresh alias manager)
produces exactly
`SELECT "t1"."id", "t1"."name" FROM "user" AS "t1" WHERE ("t1"."name" = ?)
ORDER BY "t1"."id"` with parameter list `["ada"]`. -/
theorem c1_select_where_order_sqlite :
    (renderSelect c1Query sqliteCtx freshFlats).1.query =
      ("SELECT \"t1\".\"id\", \"t1\".\"name\" FROM \"user\" AS \"t1\" " ++
       "WHERE (\"t1\".\"name\" = ?) ORDER BY \"t1\".\"id\"",
       [PyVal.str "ada"]) := by
  rfl

/-! ## C2 -/

/-- C2: for every field `f`, rendering `f.in_([])` — an `Expression` with
`op = IN` whose right side is the raw empty list, wrapped as a multi
`Value` — from any context whose flat heap has the expression's flat flag
`False` (how every fresh expression is built) appends exactly the fragments
`(`, `0 = 1`, `)` to the SQL, binds zero parameters, and leaves the flat
heap unchanged; in particular the text `IN ()` is never emitted for it. -/
theorem c2_empty_in_renders_zero_eq_one (f : FieldDef) (i : Nat) (c : Ctx)
    (s : FlatStore) (hflat : s i = false) :
    (renderNode (.expr i (.field f) OP_IN (mkValue (.pylist []) Option.none)) c s).1.sqlAcc
        = c.sqlAcc ++ ["(", "0 = 1", ")"] ∧
    (renderNode (.expr i (.field f) OP_IN (mkValue (.pylist []) Option.none)) c s).1.values
        = c.values ∧
    (renderNode (.expr i (.field f) OP_IN (mkValue (.pylist []) Option.none)) c s).2 = s := by
  simp [renderNode, mkValue, Ctx.push, Ctx.enter, Ctx.exit, Ctx.literal,
    OP_IN, hflat, String.join, PNodes.ofList]

/-- Witness for C2 at `User.name` in the fresh SQLite context. -/
theorem c2_empty_in_renders_zero_eq_one_witness :
    (renderNode (.expr 1 (.field userNameField) OP_IN
        (mkValue (.pylist []) Option.none)) sqliteCtx freshFlats).1.sqlAcc
        = sqliteCtx.sqlAcc ++ ["(", "0 = 1", ")"] ∧
    (renderNode (.expr 1 (.field userNameField) OP_IN
        (mkValue (.pylist []) Option.none)) sqliteCtx freshFlats).1.values
        = sqliteCtx.values ∧
    (renderNode (.expr 1 (.field userNameField) OP_IN
        (mkValue (.pylist []) Option.none)) sqliteCtx freshFlats).2 = freshFlats :=
  c2_empty_in_renders_zero_eq_one userNameField 1 sqliteCtx freshFlats rfl

/-! ## C4 -/

/-- C4 counterexample: rendering
`User.name == (SQL('LENGTH(x)') + 3)` — a Field-LHS expression whose RHS is
a nested sub-expression with a non-Field LHS — binds the parameter `3`
*unconverted*, although the claim requires every parameter of the RHS
subtree to be converted with `User.name.db_value`, which maps `3` to `"3"`. -/
theorem c4_transitive_converter_counterexample :
    (renderNode (.expr 1 (.field userNameField) "="
        (.expr 2 (.sqlLit "LENGTH(x)" []) "+" (.param (.int 3) Option.none)))
        sqliteCtx freshFlats).1.values = [PyVal.int 3] ∧
    dbValue userNameField.kind (.int 3) = .str "3" ∧
    PyVal.int 3 ≠ PyVal.str "3" := by
  refine ⟨rfl, rfl, by decide⟩

/-- C4 (amended): when the LHS of an expression is a Field, RHS parameters
are converted with `lhs.db_value` — but only down to the nearest nested
sub-expression: (a) a `Value` directly in the RHS is converted with the
field's `db_value` (for every operator, every context); (b) a parameter
inside a nested sub-expression whose own LHS is *not* a Field is bound
unconverted (the nested `Expression.__sql__` resets the converter to
`None`); (c) a parameter inside a nested sub-expression whose LHS is the
Field `g` is converted with `g.db_value`, not with the outer field's. -/
theorem c4_converter_injection :
    (∀ (f : FieldDef) (i : Nat) (op : String) (v : PyVal) (c : Ctx) (s : FlatStore),
      (renderNode (.expr i (.field f) op (.param v Option.none)) c s).1.values
        = c.values ++ [dbValue f.kind v]) ∧
    (∀ (f : FieldDef) (i j : Nat) (op op2 t : String) (v : PyVal) (c : Ctx)
        (s : FlatStore), op ≠ OP_IN → op2 ≠ OP_IN →
      (renderNode (.expr i (.field f) op
          (.expr j (.sqlLit t []) op2 (.param v Option.none))) c s).1.values
        = c.values ++ [v]) ∧
    (∀ (f g : FieldDef) (i j : Nat) (op op2 : String) (v : PyVal) (c : Ctx)
        (s : FlatStore), op ≠ OP_IN → op2 ≠ OP_IN →
      (renderNode (.expr i (.field f) op
          (.expr j (.field g) op2 (.param v Option.none))) c s).1.values
        = c.values ++ [dbValue g.kind v]) := by
  refine ⟨?_, ?_, ?_⟩
  · intro f i op v c s
    by_cases hop : op = OP_IN <;>
    simp [renderNode, Ctx.value, hop, String.join, apply_ite]
  · intro f i j op op2 t v c s hop hop2
    simp [renderNode, Ctx.value, hop, hop2, String.join, apply_ite]
  · intro f g i j op op2 v c s hop hop2
    simp [renderNode, Ctx.value, hop, hop2, String.join, apply_ite]

/-- Witness for C4 at concrete fields, operators and values. -/
theorem c4_converter_injection_witness :
    (renderNode (.expr 1 (.field userNameField) "=" (.param (.int 7) Option.none))
        sqliteCtx freshFlats).1.values
      = sqliteCtx.values ++ [dbValue userNameField.kind (.int 7)] ∧
    (renderNode (.expr 1 (.field userNameField) "="
        (.expr 2 (.sqlLit "x" []) "+" (.param (.int 7) Option.none)))
        sqliteCtx freshFlats).1.values = sqliteCtx.values ++ [PyVal.int 7] ∧
    (renderNode (.expr 1 (.field userNameField) "="
        (.expr 2 (.field userIdField) "+" (.param (.int 7) Option.none)))
        sqliteCtx freshFlats).1.values
      = sqliteCtx.values ++ [dbValue userIdField.kind (.int 7)] :=
  ⟨c4_converter_injection.1 userNameField 1 "=" (.int 7) sqliteCtx freshFlats,
   c4_converter_injection.2.1 userNameField 1 2 "=" "+" "x" (.int 7)
     sqliteCtx freshFlats (by decide) (by decide),
   c4_converter_injection.2.2 userNameField userIdField 1 2 "=" "+" (.int 7)
     sqliteCtx freshFlats (by decide) (by decide)⟩

/-! ## C6 -/

/-- The meta of a model `Note` owning a ForeignKeyField `user` to `User`. -/
def noteMeta : MetaRefs := { modelName := "Note" }

/-- The meta of the target model `User`. -/
def userMeta : MetaRefs := { modelName := "User" }

/-- The FK field `Note.user`. -/
def noteUserFk : FkField := { name := "user", relModel := "User" }

/-- C6 (code bug): `add_ref` does update both sides, but `remove_ref` does
*not* reverse them: after its first statement deletes `refs[field]` it
evaluates `self.model_ref[rel]` — a typo for the attribute `model_refs`
defined in `Metadata.__init__` — so it raises `AttributeError`, leaving
`model_refs`, `backrefs` and `model_backrefs` still containing the removed
field.  Evaluated at the failing input (add then remove `Note.user`): the
error is raised and none of the other three mappings is restored. -/
theorem c6_remove_ref_attribute_error :
    (addRef noteMeta userMeta noteUserFk =
      ({ modelName := "Note", refs := [(noteUserFk, "User")],
         modelRefs := [("User", [noteUserFk])] },
       { modelName := "User", backrefs := [(noteUserFk, "Note")],
         modelBackrefs := [("Note", [noteUserFk])] })) ∧
    (removeRef (addRef noteMeta userMeta noteUserFk).1
               (addRef noteMeta userMeta noteUserFk).2 noteUserFk =
      (({ modelName := "Note", refs := [],
          modelRefs := [("User", [noteUserFk])] },
        { modelName := "User", backrefs := [(noteUserFk, "Note")],
          modelBackrefs := [("Note", [noteUserFk])] }),
       some "AttributeError: 'Metadata' object has no attribute 'model_ref'")) ∧
    ((removeRef (addRef noteMeta userMeta noteUserFk).1
               (addRef noteMeta userMeta noteUserFk).2 noteUserFk).1
      ≠ (noteMeta, userMeta)) := by
  refine ⟨by decide, by decide, by decide⟩

/-! ## C3 -/

/-- Membership is preserved by stable insertion. -/
theorem mem_insertStable {lt : α → α → Bool} {x a : α} {l : List α} :
    a ∈ insertStable lt x l ↔ a = x ∨ a ∈ l := by
  induction l with
  | nil => simp [insertStable]
  | cons y ys ih =>
    simp only [insertStable]
    split
    · simp only [List.mem_cons, ih]
      tauto
    · simp only [List.mem_cons]

/-- `stableSort` permutes its input (membership form). -/
theorem mem_stableSort {lt : α → α → Bool} {a : α} {l : List α} :
    a ∈ stableSort lt l ↔ a ∈ l := by
  induction l with
  | nil => simp [stableSort]
  | cons x xs ih => simp [stableSort, mem_insertStable, ih]

/-- Every failure of the per-row loop of `_multi_insert` is a `KeyError`. -/
theorem buildRowValues_ok_or_keyerror (cc : List (InsCol × Option FieldKind))
    (vl : List (InsCol × RowKey)) (row : List (String × PyVal)) :
    (∃ vs, buildRowValues cc vl row = .ok vs) ∨
      buildRowValues cc vl row = .error "KeyError" := by
  induction cc with
  | nil => exact .inl ⟨[], rfl⟩
  | cons p rest ih =>
    obtain ⟨col, conv⟩ := p
    cases hvl : vl.lookup col with
    | none => right ; simp [buildRowValues, hvl]
    | some rk =>
      cases hg : rowGet row rk with
      | none => right ; simp [buildRowValues, hvl, hg]
      | some val =>
        rcases ih with ⟨vs, h⟩ | h
        · refine .inl ⟨PNode.param val conv :: vs, ?_⟩
          simp [buildRowValues, hvl, hg, h]
        · right ; simp [buildRowValues, hvl, hg, h]

/-- If one of the columns resolves to a key the row does not contain, the
per-row loop raises `KeyError`. -/
theorem buildRowValues_error_of_missing (cc : List (InsCol × Option FieldKind))
    (vl : List (InsCol × RowKey)) (row : List (String × PyVal))
    (col : InsCol) (conv : Option FieldKind) (k : String)
    (hmem : (col, conv) ∈ cc) (hvl : vl.lookup col = some (.str k))
    (hmiss : row.lookup k = Option.none) :
    buildRowValues cc vl row = .error "KeyError" := by
  induction cc with
  | nil => simp at hmem
  | cons p rest ih =>
    obtain ⟨col', conv'⟩ := p
    rcases List.mem_cons.mp hmem with heq | hrest
    · obtain ⟨h1, h2⟩ := Prod.mk.injEq .. ▸ heq
      subst h1
      simp [buildRowValues, hvl, rowGet, hmiss]
    · cases hl : vl.lookup col' with
      | none => simp [buildRowValues, hl]
      | some rk =>
        cases hg : rowGet row rk with
        | none => simp [buildRowValues, hl, hg]
        | some val => simp [buildRowValues, hl, hg, ih hrest]

/-- A `KeyError` in any row propagates out of the row loop. -/
theorem buildAllValues_error_of_row (cc : List (InsCol × Option FieldKind))
    (vl : List (InsCol × RowKey)) (rows : List (List (String × PyVal)))
    (row : List (String × PyVal)) (hmem : row ∈ rows)
    (herr : buildRowValues cc vl row = .error "KeyError") :
    buildAllValues cc vl rows = .error "KeyError" := by
  induction rows with
  | nil => simp at hmem
  | cons r rest ih =>
    rcases List.mem_cons.mp hmem with heq | hrest
    · subst heq ; simp [buildAllValues, herr]
    · rcases buildRowValues_ok_or_keyerror cc vl r with ⟨vs, h⟩ | h
      · rcases buildAllValues_shape : buildAllValues cc vl rest with e | vss
        all_goals simp_all [buildAllValues, h, ih hrest]
      · simp [buildAllValues, h]

/-- A pair present in a mapping row makes its key's lookup succeed. -/
theorem lookup_isSome_of_mem {row : List (String × PyVal)} {kv : String × PyVal}
    (h : kv ∈ row) : (row.lookup kv.1).isSome := by
  induction row with
  | nil => simp at h
  | cons p rest ih =>
    rcases List.mem_cons.mp h with heq | hrest
    · subst heq ; simp [List.lookup]
    · by_cases he : kv.1 = p.1
      · simp [List.lookup, he]
      · have hb : (kv.1 == p.1) = false := by simp [he]
        simp [List.lookup, hb, ih hrest]

/-- `value_lookups[Column(table, k)]` is the original key `k` when `k` is a
key of the first row. -/
theorem lookup_valueLookups (tbl : TableDef) (row : List (String × PyVal))
    (k : String) (hk : (row.lookup k).isSome) :
    (row.map (fun kv => (InsCol.column tbl kv.1, RowKey.str kv.1))).lookup
      (InsCol.column tbl k) = some (.str k) := by
  induction row with
  | nil => simp [List.lookup] at hk
  | cons p rest ih =>
    by_cases he : k = p.1
    · subst he ; simp [List.lookup]
    · have hb : (k == p.1) = false := by simp [he]
      have hb2 : ((InsCol.column tbl k) == (InsCol.column tbl p.1)) = false := by
        simp [he]
      simp only [List.lookup, List.map, hb, hb2] at hk ⊢
      exact ih hk

/-- C3 counterexample: a multi-row INSERT whose columns are inferred from
the first row `{a, b}` fails with `KeyError` on a subsequent row missing
the key `b` — it does not render NULL for the missing column. -/
theorem c3_missing_key_counterexample :
    multiInsert userTable []
      [[("a", PyVal.int 1), ("b", PyVal.int 2)], [("a", PyVal.int 3)]]
      sqliteCtx freshFlats = .error "KeyError" := by
  rfl

/-- C3 (amended): for every multi-row INSERT whose columns are inferred
from the first row, a subsequent row that is missing one of those column
keys makes rendering fail with `KeyError` (`row[value_lookups[column]]` has
no default); missing keys are never turned into NULL. -/
theorem c3_missing_key_raises (tbl : TableDef)
    (row0 : List (String × PyVal)) (rest : List (List (String × PyVal)))
    (c : Ctx) (s : FlatStore)
    (hmiss : ∃ r ∈ rest, ∃ kv ∈ row0, r.lookup kv.1 = Option.none) :
    multiInsert tbl [] (row0 :: rest) c s = .error "KeyError" := by
  obtain ⟨r, hr, kv, hkv, hnone⟩ := hmiss
  have hcols : InsCol.column tbl kv.1 ∈
      stableSort (fun a b => match a, b with
        | .column _ m, .column _ n => strLt m n
        | _, _ => false) (row0.map (fun kv => InsCol.column tbl kv.1)) := by
    rw [mem_stableSort]
    exact List.mem_map_of_mem _ hkv
  have hrow : buildRowValues
      ((stableSort (fun a b => match a, b with
        | .column _ m, .column _ n => strLt m n
        | _, _ => false) (row0.map (fun kv => InsCol.column tbl kv.1))).map
          (fun col => (col, col.converter)))
      (row0.map (fun kv => (InsCol.column tbl kv.1, RowKey.str kv.1)))
      r = .error "KeyError" := by
    refine buildRowValues_error_of_missing _ _ _ (InsCol.column tbl kv.1)
      (InsCol.converter (.column tbl kv.1)) kv.1
      (List.mem_map_of_mem _ hcols)
      (lookup_valueLookups tbl row0 kv.1 (lookup_isSome_of_mem hkv)) hnone
  have hall := buildAllValues_error_of_row _ _ (row0 :: rest) r
    (List.mem_cons_of_mem _ hr) hrow
  simp only [multiInsert, List.isEmpty_nil, if_pos]
  simp [hall]

/-- Witness for C3 (amended) at a concrete INSERT. -/
theorem c3_missing_key_raises_witness :
    multiInsert userTable []
      [[("a", PyVal.int 4), ("b", PyVal.int 5)], [("b", PyVal.int 6)],
       [("a", PyVal.int 7)]]
      sqliteCtx freshFlats = .error "KeyError" :=
  c3_missing_key_raises userTable _ _ sqliteCtx freshFlats
    ⟨[("b", PyVal.int 6)], by decide, ("a", PyVal.int 4), by decide, by decide⟩

/-! ## C10 -/

/-- Running the `fill_cache` loop with a finite bound `m` on a
non-populated wrapper that holds at least `m - count` more rows consumes
exactly `m - count` rows and stops with `count = m`. -/
theorem fillAux_partial (fuel : Nat) :
    ∀ (rows : List (List PyVal)) (cnt : Nat) (cache : List (List PyVal)) (m : Nat),
    cnt ≤ m → m - cnt ≤ rows.length → rows.length < fuel →
    fillCacheAux fuel { cursorRows := rows, count := cnt, populated := false,
                        rowCache := cache } (some m)
      = { cursorRows := rows.drop (m - cnt), count := m, populated := false,
          rowCache := cache ++ rows.take (m - cnt) } := by
  induction fuel with
  | zero => intro rows cnt cache m _ _ h ; omega
  | succ fuel ih =>
    intro rows cnt cache m hle hrem hfuel
    by_cases hlt : cnt < m
    · cases rows with
      | nil => simp at hrem ; omega
      | cons r rest =>
        simp only [fillCacheAux, CursorW.iterate]
        rw [if_pos (by simp [hlt])]
        have := ih rest (cnt + 1) (cache ++ [r]) m (by omega)
          (by simp at hrem ⊢ ; omega) (by simp at hfuel ; omega)
        rw [this]
        have hdrop : (r :: rest).drop (m - cnt) = rest.drop (m - (cnt + 1)) := by
          have : m - cnt = (m - (cnt + 1)) + 1 := by omega
          simp [this]
        have htake : cache ++ (r :: rest).take (m - cnt)
            = (cache ++ [r]) ++ rest.take (m - (cnt + 1)) := by
          have : m - cnt = (m - (cnt + 1)) + 1 := by omega
          simp [this]
        rw [hdrop, htake]
    · have hcnt : cnt = m := by omega
      subst hcnt
      simp only [fillCacheAux]
      rw [if_neg (by simp)]
      simp

/-- Running the `fill_cache` loop with `n = Inf` consumes every remaining
row and marks the wrapper populated on the final `StopIteration`. -/
theorem fillAux_full (rows : List (List PyVal)) :
    ∀ (fuel cnt : Nat) (cache : List (List PyVal)), rows.length < fuel →
    fillCacheAux fuel { cursorRows := rows, count := cnt, populated := false,
                        rowCache := cache } Option.none
      = { cursorRows := [], count := cnt + rows.length, populated := true,
          rowCache := cache ++ rows } := by
  induction rows with
  | nil =>
    intro fuel cnt cache hfuel
    cases fuel with
    | zero => omega
    | succ fuel => simp [fillCacheAux, CursorW.iterate]
  | cons r rest ih =>
    intro fuel cnt cache hfuel
    cases fuel with
    | zero => simp at hfuel
    | succ fuel =>
      simp only [fillCacheAux, CursorW.iterate]
      rw [if_pos (by simp)]
      rw [ih fuel (cnt + 1) (cache ++ [r]) (by simp at hfuel ; omega)]
      simp
      omega

/-- C10: on a freshly executed wrapper with no rows cached, indexing with
an integer `k ≥ 1` calls `fill_cache(k)`, which materializes exactly `k`
rows into the cache, and `row_cache[k]` then raises `IndexError` even
though the cursor holds more than `k` rows; indexing with `0` or with a
negative index instead fills the entire cache (`fill_cache(0)` means
"everything") and succeeds whenever the row exists. -/
theorem c10_getitem_off_by_one :
    (∀ (rows : List (List PyVal)) (k : Nat), 1 ≤ k → k < rows.length →
       (freshCursor rows).getItem (k : Int) = .error "IndexError" ∧
       ((freshCursor rows).fillCache k).rowCache.length = k) ∧
    (∀ (rows : List (List PyVal)),
       ((freshCursor rows).getItem 0).toOption.map Prod.fst = rows.head?) ∧
    (∀ (rows : List (List PyVal)) (j : Nat), 1 ≤ j → j ≤ rows.length →
       ((freshCursor rows).getItem (-(j : Int))).toOption.map Prod.fst
         = rows.get? (rows.length - j)) := by
  have hfillk : ∀ (rows : List (List PyVal)) (k : Nat), 1 ≤ k → k ≤ rows.length →
      (freshCursor rows).fillCache k
        = { cursorRows := rows.drop k, count := k, populated := false,
            rowCache := rows.take k } := by
    intro rows k h1 h2
    have hk : ¬ (k = 0) := by omega
    simp only [CursorW.fillCache, freshCursor, hk, if_false]
    have := fillAux_partial (rows.length + 1) rows 0 [] k (by omega)
      (by omega) (by omega)
    simpa using this
  have hfill0 : ∀ (rows : List (List PyVal)),
      (freshCursor rows).fillCache 0
        = { cursorRows := [], count := rows.length, populated := true,
            rowCache := rows } := by
    intro rows
    simp only [CursorW.fillCache, freshCursor, if_pos rfl]
    have := fillAux_full rows (rows.length + 1) 0 [] (by omega)
    simpa using this
  refine ⟨?_, ?_, ?_⟩
  · intro rows k h1 h2
    have hpos : (0 : Int) < (k : Int) := by
      exact_mod_cast Nat.lt_of_lt_of_le Nat.zero_lt_one h1
    have htn : ((k : Int)).toNat = k := Int.toNat_natCast k
    constructor
    · simp only [CursorW.getItem, hpos, if_pos, htn]
      rw [hfillk rows k h1 (by omega)]
      have hlen : (rows.take k).length = k := by
        simp [Nat.min_eq_left (le_of_lt h2)]
      have : pyIndex (rows.take k) (k : Int) = Option.none := by
        simp only [pyIndex, htn]
        rw [if_pos (by omega)]
        exact List.get?_eq_none.mpr (by omega)
      simp [this]
    · rw [hfillk rows k h1 (by omega)]
      simp [Nat.min_eq_left (le_of_lt h2)]
  · intro rows
    have hz : ¬ ((0:Int) < 0) := by omega
    simp only [CursorW.getItem, hz, if_false]
    rw [hfill0 rows]
    simp only [pyIndex]
    rw [if_pos (by omega)]
    rw [← List.get?_zero]
    cases h : rows.get? (Int.toNat 0) with
    | none =>
      simp only [Int.toNat_zero] at h ⊢
      simp [h, Except.toOption]
      exact List.eq_nil_of_length_eq_zero (by
        have := List.get?_eq_none.mp h ; omega)
    | some r =>
      simp only [Int.toNat_zero] at h ⊢
      simp [h, Except.toOption]
      rw [← List.get?_eq_getElem?]
      exact h.symm
  · intro rows j h1 h2
    have hneg : ¬ ((0:Int) < -(j : Int)) := by omega
    have hge : ¬ ((0:Int) ≤ -(j : Int)) := by omega
    simp only [CursorW.getItem, hneg, if_false]
    rw [hfill0 rows]
    simp only [pyIndex, hge, if_false]
    have htn : (-(-(j:Int))).toNat = j := by simp
    rw [htn, if_pos h2]
    cases hg : rows.get? (rows.length - j) with
    | none =>
      exfalso
      have := List.get?_eq_none.mp hg
      omega
    | some r => simp [hg, Except.toOption]

/-- Witness for C10 on a three-row cursor. -/
theorem c10_getitem_off_by_one_witness :
    ((freshCursor [[PyVal.int 1], [PyVal.int 2], [PyVal.int 3]]).getItem (1 : Int)
        = .error "IndexError" ∧
     ((freshCursor [[PyVal.int 1], [PyVal.int 2], [PyVal.int 3]]).fillCache 1).rowCache.length = 1) ∧
    ((freshCursor [[PyVal.int 1], [PyVal.int 2], [PyVal.int 3]]).getItem 0).toOption.map Prod.fst
        = [[PyVal.int 1], [PyVal.int 2], [PyVal.int 3]].head? ∧
    ((freshCursor [[PyVal.int 1], [PyVal.int 2], [PyVal.int 3]]).getItem (-((2 : Nat) : Int))).toOption.map Prod.fst
        = [[PyVal.int 1], [PyVal.int 2], [PyVal.int 3]].get?
            ([[PyVal.int 1], [PyVal.int 2], [PyVal.int 3]].length - 2) :=
  ⟨c10_getitem_off_by_one.1 [[PyVal.int 1], [PyVal.int 2], [PyVal.int 3]] 1
     (by decide) (by decide),
   c10_getitem_off_by_one.2.1 [[PyVal.int 1], [PyVal.int 2], [PyVal.int 3]],
   c10_getitem_off_by_one.2.2 [[PyVal.int 1], [PyVal.int 2], [PyVal.int 3]] 2
     (by decide) (by decide)⟩

/-! ## C8 -/

/-- `bisect_left` past a prefix of strictly smaller keys. -/
theorem bisectLeft_append_all_lt {xs ys : List (Nat × Nat)} {k : Nat × Nat}
    (h : ∀ x ∈ xs, keyLt x k = true) :
    bisectLeft (xs ++ ys) k = xs.length + bisectLeft ys k := by
  induction xs with
  | nil => simp
  | cons x rest ih =>
    have hx := h x (by simp)
    have ihr := ih (fun y hy => h y (by simp [hy]))
    simp [bisectLeft, hx, ihr]
    omega

/-- `bisect_left` stops at a head that is not smaller. -/
theorem bisectLeft_head_not_lt {xs : List (Nat × Nat)} {k x : Nat × Nat}
    (h : keyLt x k = false) : bisectLeft (x :: xs) k = 0 := by
  simp [bisectLeft, h]

/-- `list.insert` at the length of a prefix splices between the parts. -/
theorem listInsertAt_length_append (xs ys : List α) (z : α) :
    listInsertAt (xs ++ ys) xs.length z = xs ++ z :: ys := by
  induction xs with
  | nil => simp [listInsertAt]
  | cons x rest ih => simp [listInsertAt, ih]

/-- `list.insert` at the end appends. -/
theorem listInsertAt_at_length (l : List α) (z : α) :
    listInsertAt l l.length z = l ++ [z] := by
  have := listInsertAt_length_append l [] z
  simpa using this

/-- Unfolding `mkFields` one construction step. -/
theorem mkFields_cons (b : Bool) (rest : List Bool) (ctr : Nat) :
    mkFields (b :: rest) ctr
      = { primaryKey := b, order := ctr + 1 } :: mkFields rest (ctr + 1) := rfl

/-- The `_SortedFieldList` invariant: starting from a list that is already
split into primary keys (in declaration order) followed by non-primary-key
fields (in declaration order), all with orders at most the current counter,
inserting a freshly-constructed sequence of fields preserves the split. -/
theorem insertAll_split (flags : List Bool) : ∀ (ctr : Nat) (P N : List SortField),
    (∀ f ∈ P, f.primaryKey = true) → (∀ f ∈ N, f.primaryKey = false) →
    (∀ f ∈ P ++ N, f.order ≤ ctr) →
    insertAllFields (mkFields flags ctr)
      { keys := (P ++ N).map SortField.sortKey, items := P ++ N }
      = { keys := ((P ++ (mkFields flags ctr).filter (fun f => f.primaryKey)) ++
                   (N ++ (mkFields flags ctr).filter (fun f => !f.primaryKey))).map
                    SortField.sortKey,
          items := (P ++ (mkFields flags ctr).filter (fun f => f.primaryKey)) ++
                   (N ++ (mkFields flags ctr).filter (fun f => !f.primaryKey)) } := by
  induction flags with
  | nil =>
    intro ctr P N _ _ _
    simp [mkFields, insertAllFields]
  | cons b rest ih =>
    intro ctr P N hP hN horders
    rw [mkFields_cons]
    cases b with
    | true =>
      have hkey : SortField.sortKey { primaryKey := true, order := ctr + 1 }
          = (1, ctr + 1) := by simp [SortField.sortKey]
      have hPlt : ∀ x ∈ P.map SortField.sortKey,
          keyLt x (SortField.sortKey { primaryKey := true, order := ctr + 1 }) = true := by
        intro x hx
        obtain ⟨p, hp, hpx⟩ := List.mem_map.mp hx
        have hpk := hP p hp
        have hor := horders p (by simp [hp])
        subst hpx
        simp [SortField.sortKey, hpk, hkey, keyLt]
        omega
      have hbis : bisectLeft ((P ++ N).map SortField.sortKey)
          (SortField.sortKey { primaryKey := true, order := ctr + 1 }) = P.length := by
        rw [List.map_append, bisectLeft_append_all_lt hPlt]
        cases hNn : N.map SortField.sortKey with
        | nil => simp [bisectLeft]
        | cons y ys =>
          have hy : y ∈ N.map SortField.sortKey := by rw [hNn] ; simp
          obtain ⟨q, hq, hqy⟩ := List.mem_map.mp hy
          have hqpk := hN q hq
          have hylt : keyLt y
              (SortField.sortKey { primaryKey := true, order := ctr + 1 }) = false := by
            rw [← hqy]
            simp [SortField.sortKey, hqpk, hkey, keyLt]
          rw [bisectLeft_head_not_lt hylt]
          simp
      have hinsert :
          SortedFieldList.insert
            { keys := (P ++ N).map SortField.sortKey, items := P ++ N }
            { primaryKey := true, order := ctr + 1 }
            = { keys := ((P ++ [(⟨true, ctr + 1⟩ : SortField)]) ++ N).map
                          SortField.sortKey,
                items := (P ++ [(⟨true, ctr + 1⟩ : SortField)]) ++ N } := by
        simp only [SortedFieldList.insert, hbis, SortedFieldList.mk.injEq]
        constructor
        · rw [List.map_append,
            show P.length = (P.map SortField.sortKey).length by simp,
            listInsertAt_length_append]
          simp
        · rw [show P.length = (P.map SortField.sortKey).length by simp]
          rw [show (P.map SortField.sortKey).length = P.length by simp]
          rw [listInsertAt_length_append]
          simp
      simp only [insertAllFields, hinsert]
      rw [ih (ctr + 1) (P ++ [(⟨true, ctr + 1⟩ : SortField)]) N
        (by intro g hg ; rcases List.mem_append.mp hg with hm | hm
            · exact hP g hm
            · simp at hm ; subst hm ; rfl)
        hN
        (by intro g hg
            rcases List.mem_append.mp hg with hm | hm
            · rcases List.mem_append.mp hm with hm2 | hm2
              · have := horders g (by simp [hm2]) ; omega
              · simp at hm2 ; subst hm2 ; simp
            · have := horders g (by simp [hm]) ; omega)]
      simp [List.filter_cons, List.append_assoc]
    | false =>
      have hkey : SortField.sortKey { primaryKey := false, order := ctr + 1 }
          = (2, ctr + 1) := by simp [SortField.sortKey]
      have hall : ∀ x ∈ (P ++ N).map SortField.sortKey,
          keyLt x (SortField.sortKey { primaryKey := false, order := ctr + 1 }) = true := by
        intro x hx
        obtain ⟨p, hp, hpx⟩ := List.mem_map.mp hx
        have hor := horders p hp
        subst hpx
        rcases List.mem_append.mp hp with hmem | hmem
        · have hpk := hP p hmem
          simp [SortField.sortKey, hpk, hkey, keyLt]
        · have hpk := hN p hmem
          simp [SortField.sortKey, hpk, hkey, keyLt]
          omega
      have hbis : bisectLeft ((P ++ N).map SortField.sortKey)
          (SortField.sortKey { primaryKey := false, order := ctr + 1 })
          = (P ++ N).length := by
        have := @bisectLeft_append_all_lt _ [] _ hall
        simpa using this
      have hinsert :
          SortedFieldList.insert
            { keys := (P ++ N).map SortField.sortKey, items := P ++ N }
            { primaryKey := false, order := ctr + 1 }
            = { keys := (P ++ (N ++ [(⟨false, ctr + 1⟩ : SortField)])).map
                          SortField.sortKey,
                items := P ++ (N ++ [(⟨false, ctr + 1⟩ : SortField)]) } := by
        simp only [SortedFieldList.insert, hbis, SortedFieldList.mk.injEq]
        constructor
        · rw [show (P ++ N).length = ((P ++ N).map SortField.sortKey).length by simp,
            listInsertAt_at_length]
          simp
        · rw [show (P ++ N).length = ((P ++ N).map SortField.sortKey).length by simp]
          rw [show ((P ++ N).map SortField.sortKey).length = (P ++ N).length by simp]
          rw [listInsertAt_at_length]
          simp
      simp only [insertAllFields, hinsert]
      rw [ih (ctr + 1) P (N ++ [(⟨false, ctr + 1⟩ : SortField)])
        hP
        (by intro g hg ; rcases List.mem_append.mp hg with hm | hm
            · exact hN g hm
            · simp at hm ; subst hm ; rfl)
        (by intro g hg
            rcases List.mem_append.mp hg with hm | hm
            · have := horders g (by simp [hm]) ; omega
            · rcases List.mem_append.mp hm with hm2 | hm2
              · have := horders g (by simp [hm2]) ; omega
              · simp at hm2 ; subst hm2 ; simp)]
      simp [List.filter_cons, List.append_assoc]

/-- C8 counterexample: a primary-key field constructed when the counter was
0 gets `_sort_key = (1, 1)`, not `(0, 1)` as the claim states
(`Field.__init__` computes `(self.primary_key and 1 or 2), self._order`). -/
theorem c8_sort_key_counterexample :
    SortField.sortKey ⟨true, 1⟩ = (1, 1) ∧
    ((1 : Nat), (1 : Nat)) ≠ ((0 : Nat), (1 : Nat)) := by
  decide

/-- C8 (amended): each Field is assigned at construction the sort key
`(1 if primary_key else 2, declaration_order)` with the declaration order
taken from a globally increasing counter (`ctr+1, ctr+2, …`), and inserting
any sequence of freshly constructed fields into an empty `_SortedFieldList`
yields the primary-key fields first and all other fields after them, each
group in declaration order. -/
theorem c8_sorted_fields (flags : List Bool) (ctr : Nat) :
    (∀ f ∈ mkFields flags ctr,
       f.sortKey = ((if f.primaryKey then 1 else 2), f.order)) ∧
    ((mkFields flags ctr).map (fun f => f.order)
       = List.range' (ctr + 1) flags.length) ∧
    (insertAllFields (mkFields flags ctr) {}).items
      = (mkFields flags ctr).filter (fun f => f.primaryKey) ++
        (mkFields flags ctr).filter (fun f => !f.primaryKey) := by
  refine ⟨fun f _ => rfl, ?_, ?_⟩
  · induction flags generalizing ctr with
    | nil => simp [mkFields]
    | cons b rest ih => simp [mkFields, List.range'_succ, ih]
  · have := insertAll_split flags ctr [] []
      (by intro f hf ; simp at hf) (by intro f hf ; simp at hf)
      (by intro f hf ; simp at hf)
    simp only [List.nil_append] at this
    have h0 : ({} : SortedFieldList)
        = { keys := ([] : List SortField).map SortField.sortKey,
            items := ([] : List SortField) } := by rfl
    rw [h0, this]

/-- Witness for C8 on the declaration sequence (non-pk, pk, non-pk). -/
theorem c8_sorted_fields_witness :
    (SortField.sortKey ⟨true, 2⟩
      = ((if (⟨true, 2⟩ : SortField).primaryKey then 1 else 2),
         (⟨true, 2⟩ : SortField).order)) ∧
    ((mkFields [false, true, false] 0).map (fun f => f.order)
       = List.range' 1 3) ∧
    (insertAllFields (mkFields [false, true, false] 0) {}).items
      = (mkFields [false, true, false] 0).filter (fun f => f.primaryKey) ++
        (mkFields [false, true, false] 0).filter (fun f => !f.primaryKey) :=
  ⟨(c8_sorted_fields [false, true, false] 0).1 ⟨true, 2⟩ (by decide),
   (c8_sorted_fields [false, true, false] 0).2.1,
   (c8_sorted_fields [false, true, false] 0).2.2⟩

end Peewee

/-! ### C7: transaction / savepoint nesting discipline

`execAtomic d c b` runs one `Database.atomic()` frame of block `b` at
savepoint-nesting depth `d` (depth 0 uses `_transaction`, positive depths use
`_savepoint`, exactly as `Database.atomic` dispatches on
`self.transaction_depth()`), with `c` the savepoint-id counter.  The lemmas
below count the emitted operations.  -/

namespace Peewee

mutual
theorem spCount_atomic (d c : Nat) (b : ABlock) (hd : 0 < d) (n : Nat) :
    c ≤ (execAtomic d c b).2.2 ∧
    ((execAtomic d c b).1.count (.savepointT n)
       = if c < n ∧ n ≤ (execAtomic d c b).2.2 then 1 else 0) ∧
    ((execAtomic d c b).1.count (.releaseT n)
       + (execAtomic d c b).1.count (.rollbackToT n)
       = if c < n ∧ n ≤ (execAtomic d c b).2.2 then 1 else 0) ∧
    ((execAtomic d c b).1.count .commitT = 0) ∧
    ((execAtomic d c b).1.count .rollbackT = 0) ∧
    ((execAtomic d c b).1.count .pushT = 0) ∧
    ((execAtomic d c b).1.count .popT = 0) := by
  match b with
  | .block children raises =>
    have hbody := spCount_body d (c + 1) children hd n
    have hne : ¬ (d = 0) := by omega
    simp only [execAtomic, hne, if_false]
    rcases hexec : execBody d (c + 1) children with ⟨bodyOps, bodyRaised, ctr2⟩
    rw [hexec] at hbody
    simp only at hbody
    obtain ⟨hc, hsv, hrel, hcm, hrb, hpu, hpo⟩ := hbody
    by_cases hraised : (bodyRaised || raises) = true <;>
      [simp only [hraised, if_true] ; simp only [hraised, if_false]] <;>
      refine ⟨by omega, ?_, ?_, ?_, ?_, ?_, ?_⟩ <;>
      simp [List.count_cons, List.count_append, hcm, hrb, hpu, hpo] <;>
      (try split_ifs at hsv hrel ⊢) <;> omega

theorem spCount_body (d c : Nat) (bs : ABlocks) (hd : 0 < d) (n : Nat) :
    c ≤ (execBody d c bs).2.2 ∧
    ((execBody d c bs).1.count (.savepointT n)
       = if c < n ∧ n ≤ (execBody d c bs).2.2 then 1 else 0) ∧
    ((execBody d c bs).1.count (.releaseT n)
       + (execBody d c bs).1.count (.rollbackToT n)
       = if c < n ∧ n ≤ (execBody d c bs).2.2 then 1 else 0) ∧
    ((execBody d c bs).1.count .commitT = 0) ∧
    ((execBody d c bs).1.count .rollbackT = 0) ∧
    ((execBody d c bs).1.count .pushT = 0) ∧
    ((execBody d c bs).1.count .popT = 0) := by
  match bs with
  | .nil =>
    refine ⟨le_rfl, ?_, ?_, rfl, rfl, rfl, rfl⟩ <;>
      simp only [execBody, List.count_nil] <;> rw [if_neg (by omega)]
  | .cons b rest =>
    have hb := spCount_atomic d c b hd n
    simp only [execBody]
    rcases hexec : execAtomic d c b with ⟨ops1, raised1, c1⟩
    rw [hexec] at hb
    simp only at hb
    obtain ⟨hc1, hsv1, hrel1, hcm1, hrb1, hpu1, hpo1⟩ := hb
    by_cases hr : raised1 = true
    · simp [hr, hsv1, hrel1, hcm1, hrb1, hpu1, hpo1, hc1]
    · have hrest := spCount_body d c1 rest hd n
      rcases hexec2 : execBody d c1 rest with ⟨ops2, raised2, c2⟩
      rw [hexec2] at hrest
      simp only at hrest
      obtain ⟨hc2, hsv2, hrel2, hcm2, hrb2, hpu2, hpo2⟩ := hrest
      simp only [hr, if_false, Bool.false_eq_true]
      refine ⟨by omega, ?_, ?_, ?_, ?_, ?_, ?_⟩ <;>
        simp [List.count_append, hcm1, hcm2, hrb1, hrb2, hpu1, hpu2,
          hpo1, hpo2] <;>
        (try split_ifs at hsv1 hsv2 hrel1 hrel2 ⊢) <;> omega
end

/-- C7: for every nesting of `atomic()` frames executed on one connection,
the outermost frame issues exactly one COMMIT when no exception escapes its
body and exactly one ROLLBACK when one does (and never both); the push of the
outermost transaction onto the connection's transaction stack is matched by
exactly one pop; and every `SAVEPOINT sid` issued by a nested frame is matched
by exactly one `RELEASE SAVEPOINT sid` or `ROLLBACK TO SAVEPOINT sid`.
Moreover each nested savepoint frame individually emits `SAVEPOINT` on entry
and then its body's operations followed by `RELEASE SAVEPOINT` on normal exit
or `ROLLBACK TO SAVEPOINT` when the body raises. -/
theorem c7_transaction_nesting :
    (∀ (b : ABlock),
      ((execAtomic 0 0 b).1.count .commitT
         = if (execAtomic 0 0 b).2.1 then 0 else 1) ∧
      ((execAtomic 0 0 b).1.count .rollbackT
         = if (execAtomic 0 0 b).2.1 then 1 else 0) ∧
      ((execAtomic 0 0 b).1.count .pushT = 1) ∧
      ((execAtomic 0 0 b).1.count .popT = 1) ∧
      (∀ n, (execAtomic 0 0 b).1.count (.savepointT n)
         = (execAtomic 0 0 b).1.count (.releaseT n)
           + (execAtomic 0 0 b).1.count (.rollbackToT n))) ∧
    (∀ (d c : Nat) (cs : ABlocks) (r : Bool), 0 < d →
      execAtomic d c (.block cs r)
        = (TOp.savepointT (c+1) ::
            ((execBody d (c+1) cs).1 ++
             (if (execBody d (c+1) cs).2.1 || r then [TOp.rollbackToT (c+1)]
              else [TOp.releaseT (c+1)])),
           ((execBody d (c+1) cs).2.1 || r, (execBody d (c+1) cs).2.2))) := by
  constructor
  · intro b
    match b with
    | .block children raises =>
      simp only [execAtomic, if_pos rfl]
      rcases hexec : execBody 1 0 children with ⟨bodyOps, bodyRaised, ctr2⟩
      have hbody := fun n => spCount_body 1 0 children (by omega) n
      simp only [hexec] at hbody
      by_cases hraised : (bodyRaised || raises) = true <;>
        [simp only [hraised, if_true] ; simp only [hraised, if_false]] <;>
        refine ⟨?_, ?_, ?_, ?_, ?_⟩ <;>
        first
          | (intro n
             have h := hbody n
             simp only at h
             obtain ⟨hc, hsv, hrel, hcm, hrb, hpu, hpo⟩ := h
             simp [List.count_cons, List.count_append, hsv, hrel, hcm, hrb,
               hpu, hpo])
          | (have h := hbody 0
             simp only at h
             obtain ⟨hc, hsv, hrel, hcm, hrb, hpu, hpo⟩ := h
             simp [List.count_cons, List.count_append, hcm, hrb, hpu, hpo])
  · intro d c cs r hd
    have hne : ¬ (d = 0) := by omega
    simp only [execAtomic, hne, if_false]

/-- Witness for C7: a savepoint frame with an empty body at depth 1 emits
exactly `SAVEPOINT 1; RELEASE SAVEPOINT 1`. -/
theorem c7_transaction_nesting_witness :
    (0 < 1) ∧
    execAtomic 1 0 (.block .nil false)
      = ([TOp.savepointT 1, TOp.releaseT 1], (false, 1)) :=
  ⟨Nat.zero_lt_one,
   (c7_transaction_nesting.2 1 0 ABlocks.nil false Nat.zero_lt_one).trans
     (by rfl)⟩

end Peewee

/-! ### C5: purity of rendering with respect to the builder

The only mutation rendering performs on state reachable from a builder is
`NodeList.__init__` setting an `Expression.flat` flag (modeled by the
`FlatStore` heap).  The lemmas below show this effect is monotone — a flag is
only ever set, never cleared — at the node level and at the `Select` level.
-/

namespace Peewee

theorem monoStep {a b c : Bool} (h1 : a = b ∨ a = true)
    (h2 : b = c ∨ b = true) : a = c ∨ a = true := by
  rcases h1 with h | h <;> rcases h2 with h2 | h2 <;> simp_all

theorem markFlat_mono (s : FlatStore) (j i : Nat) :
    markFlat s j i = s i ∨ markFlat s j i = true := by
  simp only [markFlat]; split <;> simp

theorem nodeListInit_mono (ns : PNodes) (p : Bool) (s : FlatStore) (i : Nat) :
    nodeListInit ns p s i = s i ∨ nodeListInit ns p s i = true := by
  simp only [nodeListInit]
  split
  · split
    · exact markFlat_mono _ _ _
    · exact .inl rfl
  · exact .inl rfl

mutual
theorem renderNode_flat_mono (n : PNode) (c : Ctx) (s : FlatStore) (i : Nat) :
    (renderNode n c s).2 i = s i ∨ (renderNode n c s).2 i = true := by
  match n with
  | .entity _ => exact .inl rfl
  | .param _ _ => exact .inl rfl
  | .sqlLit _ _ => exact .inl rfl
  | .column _ _ => exact .inl rfl
  | .table _ => exact .inl rfl
  | .field _ => exact .inl rfl
  | .expr j lhs op rhs =>
    simp only [renderNode]
    split
    · split
      · exact renderNode_flat_mono rhs {} s i
      · exact monoStep
          (monoStep (renderNode_flat_mono rhs _ _ i)
            (renderNode_flat_mono lhs _ _ i))
          (renderNode_flat_mono rhs {} s i)
    · exact monoStep (renderNode_flat_mono rhs _ _ i)
        (renderNode_flat_mono lhs _ _ i)
  | .nodeList .nil glue parens => exact .inl rfl
  | .nodeList (.cons h t) glue parens =>
    simp only [renderNode]
    exact renderNodes_flat_mono (.cons h t) glue _ s i
  | .fnCall name .nil => exact .inl rfl
  | .fnCall name (.cons a as) =>
    simp only [renderNode]
    exact monoStep (renderNodes_flat_mono (.cons a as) ", " _ _ i)
      (nodeListInit_mono _ true s i)

theorem renderNodes_flat_mono (ns : PNodes) (glue : String) (c : Ctx)
    (s : FlatStore) (i : Nat) :
    (renderNodes ns glue c s).2 i = s i ∨
      (renderNodes ns glue c s).2 i = true := by
  match ns with
  | .nil => exact .inl rfl
  | .cons n .nil => exact renderNode_flat_mono n c s i
  | .cons n (.cons m rest) =>
    simp only [renderNodes]
    exact monoStep (renderNodes_flat_mono (.cons m rest) glue _ _ i)
      (renderNode_flat_mono n c s i)
end

end Peewee

namespace Peewee

theorem mono_of_eq {n : PNode} {C : Ctx} {s0 : FlatStore} {ck : Ctx}
    {sk : FlatStore} (heq : renderNode n C s0 = (ck, sk)) (i : Nat) :
    sk i = s0 i ∨ sk i = true := by
  have h := renderNode_flat_mono n C s0 i
  rw [heq] at h
  exact h

theorem applyOrdering_flat_mono (q : SelectQ) (c : Ctx) (s : FlatStore)
    (i : Nat) :
    (applyOrdering q c s).2 i = s i ∨ (applyOrdering q c s).2 i = true := by
  simp only [applyOrdering]
  repeat' split
  all_goals
    first
      | exact .inl rfl
      | exact renderNode_flat_mono _ _ _ i

set_option maxHeartbeats 1000000 in
theorem renderSelect_flat_mono (q : SelectQ) (c : Ctx) (s : FlatStore)
    (i : Nat) :
    (renderSelect q c s).2 i = s i ∨ (renderSelect q c s).2 i = true := by
  rw [renderSelect.eq_def]
  split
  · exact .inl rfl
  · simp only []
    repeat' split
    all_goals
      repeat
        first
          | refine monoStep (applyOrdering_flat_mono _ _ _ i) ?_
          | refine monoStep (renderNode_flat_mono _ _ _ i) ?_
          | refine monoStep (nodeListInit_mono _ _ _ i) ?_
          | exact .inl rfl

end Peewee

namespace Peewee

/-- Counterexample to claim C5: `c5Builder` shares one `Expression` object
(id 1) between its WHERE clause and a function argument in ORDER BY.
`Function.__sql__` builds an `EnclosedNodeList` around the argument at render
time, and `NodeList.__init__` sets the expression's `flat` attribute to
`True` in place; rendering is therefore not pure: the first render emits the
WHERE clause parenthesized, the second render of the *same* builder does not,
and the builder's reachable state (the `flat` heap) has changed. -/
theorem c5_render_not_pure_counterexample :
    (renderSelect c5Builder sqliteCtx freshFlats).1.query
      = ("SELECT \"t1\".\"id\" FROM \"user\" AS \"t1\" WHERE (\"t1\".\"name\" = ?) ORDER BY FOO(\"t1\".\"name\" = ?)",
         [PyVal.str "a", PyVal.str "a"]) ∧
    (renderSelect c5Builder sqliteCtx
        (renderSelect c5Builder sqliteCtx freshFlats).2).1.query
      = ("SELECT \"t1\".\"id\" FROM \"user\" AS \"t1\" WHERE \"t1\".\"name\" = ? ORDER BY FOO(\"t1\".\"name\" = ?)",
         [PyVal.str "a", PyVal.str "a"]) ∧
    (renderSelect c5Builder sqliteCtx freshFlats).1.query
      ≠ (renderSelect c5Builder sqliteCtx
           (renderSelect c5Builder sqliteCtx freshFlats).2).1.query ∧
    freshFlats 1 = false ∧
    (renderSelect c5Builder sqliteCtx freshFlats).2 1 = true := by
  have h1 : (renderSelect c5Builder sqliteCtx freshFlats).1.query
      = ("SELECT \"t1\".\"id\" FROM \"user\" AS \"t1\" WHERE (\"t1\".\"name\" = ?) ORDER BY FOO(\"t1\".\"name\" = ?)",
         [PyVal.str "a", PyVal.str "a"]) := rfl
  have h2 : (renderSelect c5Builder sqliteCtx
        (renderSelect c5Builder sqliteCtx freshFlats).2).1.query
      = ("SELECT \"t1\".\"id\" FROM \"user\" AS \"t1\" WHERE \"t1\".\"name\" = ? ORDER BY FOO(\"t1\".\"name\" = ?)",
         [PyVal.str "a", PyVal.str "a"]) := rfl
  refine ⟨h1, h2, ?_, rfl, rfl⟩
  intro h
  rw [h1, h2] at h
  exact absurd (congrArg Prod.fst h) (by decide)

/-- C5 (amended): rendering is not pure on the builder's reachable state, but
its only side effect is setting `Expression.flat` flags to `True` — it never
clears one — and on a builder all of whose expressions already have
`flat = True` the heap is left untouched, so rendering twice from that point
on yields identical results (the mutation happens at most once per
expression; the impurity of claim C5 is a first-render-only effect). -/
theorem c5_render_flat_effect :
    (∀ (n : PNode) (c : Ctx) (s : FlatStore) (i : Nat),
        (renderNode n c s).2 i = s i ∨ (renderNode n c s).2 i = true) ∧
    (∀ (q : SelectQ) (c : Ctx) (s : FlatStore) (i : Nat),
        (renderSelect q c s).2 i = s i ∨ (renderSelect q c s).2 i = true) ∧
    (∀ (q : SelectQ) (c : Ctx) (s : FlatStore), (∀ i, s i = true) →
        (renderSelect q c s).2 = s ∧
        renderSelect q c (renderSelect q c s).2 = renderSelect q c s) := by
  refine ⟨renderNode_flat_mono, renderSelect_flat_mono, ?_⟩
  intro q c s hs
  have h2 : (renderSelect q c s).2 = s := by
    funext j
    rcases renderSelect_flat_mono q c s j with h | h
    · exact h
    · rw [h, hs j]
  exact ⟨h2, by rw [h2]⟩

/-- Witness for C5 (amended) on the counterexample builder over the all-set
flat heap. -/
theorem c5_render_flat_effect_witness :
    ((fun _ => true : FlatStore) 1 = true) ∧
    (renderSelect c5Builder sqliteCtx (fun _ => true)).2 = (fun _ => true) ∧
    renderSelect c5Builder sqliteCtx
        ((renderSelect c5Builder sqliteCtx (fun _ => true)).2)
      = renderSelect c5Builder sqliteCtx (fun _ => true) :=
  ⟨rfl,
   (c5_render_flat_effect.2.2 c5Builder sqliteCtx (fun _ => true)
      (fun _ => rfl)).1,
   (c5_render_flat_effect.2.2 c5Builder sqliteCtx (fun _ => true)
      (fun _ => rfl)).2⟩

end Peewee

/-! ### C9: prefetch correctness -/

namespace Peewee

theorem idLookup_modify_eq (m : IdMap) (key : String × PyVal) (j : Nat) :
    (m.map (fun p => if p.1 = key then (p.1, p.2 ++ [j]) else p)).lookup key
      = (m.lookup key).map (fun l => l ++ [j]) := by
  induction m with
  | nil => rfl
  | cons p ps ih =>
    simp only [List.map_cons]
    by_cases h : p.1 = key
    · rw [if_pos h]
      have hb : (key == p.1) = true := by simp [beq_iff_eq, h.symm]
      simp [List.lookup, hb]
    · rw [if_neg h]
      have hb : (key == p.1) = false := by
        simp only [beq_eq_false_iff_ne, ne_eq]
        exact fun hh => h hh.symm
      simp [List.lookup, hb, ih]

theorem idLookup_modify_ne (m : IdMap) (key k2 : String × PyVal) (j : Nat)
    (hne : k2 ≠ key) :
    (m.map (fun p => if p.1 = key then (p.1, p.2 ++ [j]) else p)).lookup k2
      = m.lookup k2 := by
  induction m with
  | nil => rfl
  | cons p ps ih =>
    simp only [List.map_cons]
    by_cases h : p.1 = key
    · rw [if_pos h]
      have hb : (k2 == p.1) = false := by
        simp only [beq_eq_false_iff_ne, ne_eq]
        exact fun hh => hne (hh.trans h)
      have hb2 : (k2 == key) = false := by
        simp only [beq_eq_false_iff_ne, ne_eq]; exact hne
      rw [h] at hb
      simp [List.lookup, hb, hb2, ih, h]
    · rw [if_neg h]
      by_cases h2 : k2 = p.1
      · have hb : (k2 == p.1) = true := by simp [beq_iff_eq, h2]
        simp [List.lookup, hb]
      · have hb : (k2 == p.1) = false := by
          simp only [beq_eq_false_iff_ne, ne_eq]; exact h2
        simp [List.lookup, hb, ih]

theorem idLookup_append_single (m : IdMap) (key : String × PyVal)
    (v : List Nat) (k2 : String × PyVal) :
    (m ++ [(key, v)]).lookup k2
      = ((m.lookup k2).or (if k2 = key then some v else Option.none)) := by
  induction m with
  | nil =>
    by_cases h : k2 = key
    · have hb : (k2 == key) = true := by simp [beq_iff_eq, h]
      simp [List.lookup, hb, h]
    · have hb : (k2 == key) = false := by simp [beq_iff_eq, h]
      simp [List.lookup, hb, h]
  | cons p ps ih =>
    by_cases h : k2 = p.1
    · have hb : (k2 == p.1) = true := by simp [beq_iff_eq, h]
      simp [List.lookup, hb]
    · have hb : (k2 == p.1) = false := by simp [beq_iff_eq, h]
      simp [List.lookup, hb, ih]

theorem storeInstance_lookup_self (fname : String) (k : FieldKind)
    (fk : PyVal) (j : Nat) (m : IdMap) :
    ((storeInstance fname k fk j m).lookup (fname, pythonValue k fk)).getD []
      = ((m.lookup (fname, pythonValue k fk)).getD []) ++ [j] := by
  simp only [storeInstance]
  split
  case isTrue h =>
    rw [idLookup_modify_eq]
    rcases Option.isSome_iff_exists.mp h with ⟨l, hl⟩
    simp [hl]
  case isFalse h =>
    rw [idLookup_append_single]
    have : m.lookup (fname, pythonValue k fk) = Option.none :=
      Option.not_isSome_iff_eq_none.mp h
    simp [this]

theorem storeInstance_lookup_other (fname : String) (k : FieldKind)
    (fk : PyVal) (j : Nat) (m : IdMap) (k2 : String × PyVal)
    (hne : k2 ≠ (fname, pythonValue k fk)) :
    (storeInstance fname k fk j m).lookup k2 = m.lookup k2 := by
  simp only [storeInstance]
  split
  · exact idLookup_modify_ne m _ k2 j hne
  · rw [idLookup_append_single]
    simp [hne]

theorem buildIdMap_go_spec (fname : String) (k : FieldKind) (C : List PyVal) :
    ∀ (j : Nat) (m : IdMap) (v : PyVal),
    ((buildIdMap.go fname k j
        (C.map (fun fk => ({ fkVal := fk } : ChildInst))) m).lookup
      (fname, v)).getD []
      = ((m.lookup (fname, v)).getD []) ++ matchingChildren k j C v := by
  induction C with
  | nil => intro j m v; simp [buildIdMap.go, matchingChildren]
  | cons fk rest ih =>
    intro j m v
    simp only [List.map_cons, buildIdMap.go]
    rw [ih]
    by_cases h : pythonValue k fk = v
    · have hs := storeInstance_lookup_self fname k fk j m
      rw [h] at hs
      rw [hs]
      simp [matchingChildren, h, List.append_assoc]
    · rw [storeInstance_lookup_other fname k fk j m (fname, v)
        (by intro hh; exact h (by injection hh with h1 h2; exact h2.symm))]
      simp [matchingChildren, h]

theorem buildIdMap_lookup (fname : String) (k : FieldKind) (C : List PyVal)
    (v : PyVal) :
    ((buildIdMap fname k
        (C.map (fun fk => ({ fkVal := fk } : ChildInst)))).lookup
      (fname, v)).getD []
      = matchingChildren k 0 C v := by
  have h := buildIdMap_go_spec fname k C 0 [] v
  simpa [buildIdMap] using h

theorem mem_matchingChildren (k : FieldKind) (C : List PyVal) :
    ∀ (j0 : Nat) (v : PyVal) (j : Nat),
    j ∈ matchingChildren k j0 C v ↔
      ∃ t, t < C.length ∧ j = j0 + t ∧
        pythonValue k (C.getD t .none) = v := by
  induction C with
  | nil => intro j0 v j; simp [matchingChildren]
  | cons fk rest ih =>
    intro j0 v j
    simp only [matchingChildren]
    by_cases h : pythonValue k fk = v
    · rw [if_pos h]
      constructor
      · intro hm
        rcases List.mem_cons.mp hm with rfl | hm
        · exact ⟨0, by simp, by omega, by simpa using h⟩
        · rcases (ih (j0 + 1) v j).mp hm with ⟨t, ht, rfl, hmt⟩
          exact ⟨t + 1, by simpa using ht, by omega, by simpa using hmt⟩
      · rintro ⟨t, ht, rfl, hmt⟩
        match t with
        | 0 => exact List.mem_cons.mpr (.inl (by omega))
        | t + 1 =>
          exact List.mem_cons.mpr (.inr ((ih (j0 + 1) v (j0 + (t + 1))).mpr
            ⟨t, by simpa using ht, by omega, by simpa using hmt⟩))
    · rw [if_neg h, ih (j0 + 1) v j]
      constructor
      · rintro ⟨t, ht, rfl, hmt⟩
        exact ⟨t + 1, by simpa using ht, by omega, by simpa using hmt⟩
      · rintro ⟨t, ht, rfl, hmt⟩
        match t with
        | 0 => exact absurd (by simpa using hmt) h
        | t + 1 =>
          exact ⟨t, by simpa using ht, by omega, by simpa using hmt⟩

theorem listModify_length (l : List α) (i : Nat) (f : α → α) :
    (listModify l i f).length = l.length := by
  induction l generalizing i with
  | nil => rfl
  | cons x xs ih =>
    match i with
    | 0 => rfl
    | n + 1 => simp [listModify, ih]

theorem listModify_getD (l : List α) (i j : Nat) (f : α → α) (d : α) :
    (listModify l i f).getD j d
      = if j = i ∧ i < l.length then f (l.getD i d) else l.getD j d := by
  induction l generalizing i j with
  | nil => simp [listModify]
  | cons x xs ih =>
    match i, j with
    | 0, 0 => simp [listModify]
    | 0, j + 1 => simp [listModify]
    | n + 1, 0 => simp [listModify]
    | n + 1, j + 1 =>
      simp only [listModify, List.getD_cons_succ, List.length_cons]
      rw [ih n j]
      by_cases h1 : j = n <;> by_cases h2 : n < xs.length <;>
        simp [h1, h2]

theorem foldl_listModify_length (f : ChildInst → ChildInst) (rel : List Nat)
    (cs : List ChildInst) :
    (rel.foldl (fun cs j => listModify cs j f) cs).length = cs.length := by
  induction rel generalizing cs with
  | nil => rfl
  | cons r rest ih => simp [List.foldl_cons, ih, listModify_length]

theorem foldl_listModify_getD (f : ChildInst → ChildInst)
    (hf : ∀ x, f (f x) = f x) (rel : List Nat) (cs : List ChildInst)
    (j : Nat) (d : ChildInst) :
    (rel.foldl (fun cs j => listModify cs j f) cs).getD j d
      = if j ∈ rel ∧ j < cs.length then f (cs.getD j d) else cs.getD j d := by
  induction rel generalizing cs with
  | nil => simp
  | cons r rest ih =>
    simp only [List.foldl_cons]
    rw [ih, listModify_length, listModify_getD]
    by_cases h3 : j = r
    · subst h3
      by_cases h1 : j ∈ rest <;> by_cases h2 : j < cs.length <;>
        simp [h1, h2, hf, List.mem_cons]
    · by_cases h1 : j ∈ rest <;> by_cases h2 : j < cs.length <;>
        simp [h1, h2, h3, hf, List.mem_cons]

theorem populateParents_fst (fname : String) (m : IdMap) :
    ∀ (ps : List ParentInst) (i0 : Nat) (cs : List ChildInst),
    (populateParents fname i0 ps m cs).1
      = ps.map (fun p =>
          { p with backrefList := some ((m.lookup (fname, p.pk)).getD []) }) := by
  intro ps
  induction ps with
  | nil => intro i0 cs; rfl
  | cons p rest ih =>
    intro i0 cs
    simp [populateParents, populateInstance, ih]

theorem populateParents_snd_length (fname : String) (m : IdMap) :
    ∀ (ps : List ParentInst) (i0 : Nat) (cs : List ChildInst),
    (populateParents fname i0 ps m cs).2.length = cs.length := by
  intro ps
  induction ps with
  | nil => intro i0 cs; rfl
  | cons p rest ih =>
    intro i0 cs
    simp [populateParents, populateInstance, ih, foldl_listModify_length]

theorem populateParents_snd_untouched (fname : String) (m : IdMap) :
    ∀ (ps : List ParentInst) (i0 : Nat) (cs : List ChildInst) (j : Nat)
      (d : ChildInst),
    (∀ di, di < ps.length →
      j ∉ ((m.lookup (fname, (ps.getD di pDefault).pk)).getD [])) →
    ((populateParents fname i0 ps m cs).2).getD j d = cs.getD j d := by
  intro ps
  induction ps with
  | nil => intro i0 cs j d _; rfl
  | cons p rest ih =>
    intro i0 cs j d h
    simp only [populateParents, populateInstance]
    rw [ih (i0 + 1) _ j d (fun di hdi => by
      have hh := h (di + 1) (by simpa using hdi)
      simpa using hh)]
    rw [foldl_listModify_getD (fun ch => { ch with parentRef := some i0 })
      (fun x => rfl)]
    have h0 := h 0 (by simp)
    simp only [List.getD_cons_zero] at h0
    simp [h0]

theorem populateParents_snd_touched (fname : String) (m : IdMap) :
    ∀ (ps : List ParentInst) (di : Nat) (i0 : Nat) (cs : List ChildInst)
      (j : Nat) (d : ChildInst),
    di < ps.length →
    j ∈ ((m.lookup (fname, (ps.getD di pDefault).pk)).getD []) →
    j < cs.length →
    (∀ di', di' < ps.length → di' ≠ di →
      j ∉ ((m.lookup (fname, (ps.getD di' pDefault).pk)).getD [])) →
    ((populateParents fname i0 ps m cs).2).getD j d
      = { cs.getD j d with parentRef := some (i0 + di) } := by
  intro ps
  induction ps with
  | nil => intro di i0 cs j d hdi; exact absurd hdi (by simp)
  | cons p rest ih =>
    intro di i0 cs j d hdi hmem hlen huniq
    match di with
    | 0 =>
      simp only [populateParents, populateInstance]
      rw [populateParents_snd_untouched fname m rest (i0 + 1) _ j d
        (fun t ht => by
          have hh := huniq (t + 1) (by simpa using ht) (by omega)
          simpa using hh)]
      rw [foldl_listModify_getD (fun ch => { ch with parentRef := some i0 })
        (fun x => rfl)]
      have hmem0 : j ∈ (m.lookup (fname, p.pk)).getD [] := by simpa using hmem
      simp [hmem0, hlen]
    | dt + 1 =>
      simp only [populateParents, populateInstance]
      have hmem' : j ∈ (m.lookup (fname, (rest.getD dt pDefault).pk)).getD [] := by
        simpa using hmem
      have h0 : j ∉ (m.lookup (fname, p.pk)).getD [] := by
        have hh := huniq 0 (by simp) (by omega)
        simpa using hh
      have hlen' : j < (((m.lookup (fname, p.pk)).getD []).foldl
          (fun cs j => listModify cs j
            (fun ch => { ch with parentRef := some i0 })) cs).length := by
        rw [foldl_listModify_length]
        exact hlen
      rw [ih dt (i0 + 1) _ j d (by simpa using hdi) hmem' hlen'
        (fun t ht hne => by
          have hh := huniq (t + 1) (by simpa using ht) (by omega)
          simpa using hh)]
      rw [foldl_listModify_getD (fun ch => { ch with parentRef := some i0 })
        (fun x => rfl)]
      have harith : i0 + 1 + dt = i0 + (dt + 1) := by omega
      simp [h0, harith]

/-- C9: prefetch correctness.  For every root result set `R` (parent rows,
with pairwise-distinct primary keys) and child result set `C` linked to it by
the foreign key `fname`: `prefetch` executes exactly one query per input
query (the child query first, then the root query); afterwards every parent
`r` has its backref attribute set to exactly the children `c ∈ C` with
`python_value(c.f) = r.pk`, in the child query's order; every such child's
FK attribute is set to the parent instance itself (its index); and a child
matching no parent keeps its plain FK value. -/
theorem c9_prefetch_correct (R C : List PyVal) (fname : String)
    (k : FieldKind) (hdist : R.Pairwise (fun a b => a ≠ b)) :
    ((prefetchRun R C fname k).2.2 = [1, 0]) ∧
    ((prefetchRun R C fname k).1.length = R.length) ∧
    ((prefetchRun R C fname k).2.1.length = C.length) ∧
    (∀ i, i < R.length →
      ((prefetchRun R C fname k).1.getD i pDefault).pk = R.getD i .none ∧
      ((prefetchRun R C fname k).1.getD i pDefault).backrefList
        = some (matchingChildren k 0 C (R.getD i .none))) ∧
    (∀ j, j < C.length →
      (((prefetchRun R C fname k).2.1.getD j cDefault).fkVal
         = C.getD j .none) ∧
      (∀ i, i < R.length →
        R.getD i .none = pythonValue k (C.getD j .none) →
        ((prefetchRun R C fname k).2.1.getD j cDefault).parentRef = some i) ∧
      ((∀ i, i < R.length →
          R.getD i .none ≠ pythonValue k (C.getD j .none)) →
        ((prefetchRun R C fname k).2.1.getD j cDefault).parentRef
          = Option.none)) := by
  have hP := List.pairwise_iff_getElem.mp hdist
  have hne : ∀ a b, a < R.length → b < R.length → a ≠ b →
      R.getD a .none ≠ R.getD b .none := by
    intro a b ha hb hab
    rw [List.getD_eq_getElem R .none ha, List.getD_eq_getElem R .none hb]
    rcases Nat.lt_or_ge a b with h | h
    · exact hP a b ha hb h
    · exact (hP b a hb ha (by omega)).symm
  have hmemC : ∀ j v, j ∈ matchingChildren k 0 C v ↔
      (j < C.length ∧ pythonValue k (C.getD j .none) = v) := by
    intro j v
    rw [mem_matchingChildren]
    constructor
    · rintro ⟨t, ht, rfl, hm⟩
      refine ⟨by simpa using ht, ?_⟩
      simpa using hm
    · rintro ⟨hj, hm⟩
      exact ⟨j, hj, by omega, hm⟩
  have hpk : ∀ di, di < R.length →
      ((R.map (fun v => ({ pk := v } : ParentInst))).getD di pDefault).pk
        = R.getD di .none := by
    intro di h
    rw [List.getD_eq_getElem _ _ (by simpa), List.getElem_map,
      List.getD_eq_getElem R .none h]
  have hck : ∀ j, j < C.length →
      ((C.map (fun v => ({ fkVal := v } : ChildInst))).getD j cDefault)
        = { fkVal := C.getD j .none } := by
    intro j h
    rw [List.getD_eq_getElem _ _ (by simpa), List.getElem_map,
      List.getD_eq_getElem C .none h]
  have hlook := buildIdMap_lookup fname k C
  simp only [prefetchRun]
  refine ⟨by trivial, ?_, ?_, ?_, ?_⟩
  · rw [populateParents_fst]
    simp
  · rw [populateParents_snd_length]
    simp
  · intro i hi
    rw [populateParents_fst]
    rw [List.map_map]
    rw [List.getD_eq_getElem _ _ (by simpa), List.getElem_map,
      ← List.getD_eq_getElem R .none hi]
    exact ⟨by trivial, by simp [hlook]⟩
  · intro j hj
    have hjc : j < (C.map (fun v => ({ fkVal := v } : ChildInst))).length := by
      simpa
    -- membership translation for an arbitrary parent index
    have hmemIdx : ∀ di, di < R.length →
        (j ∈ ((buildIdMap fname k
            (C.map (fun v => ({ fkVal := v } : ChildInst)))).lookup
          (fname,
            ((R.map (fun v => ({ pk := v } : ParentInst))).getD di
              pDefault).pk)).getD []
          ↔ pythonValue k (C.getD j .none) = R.getD di .none) := by
      intro di hdi
      rw [hpk di hdi, hlook, hmemC]
      constructor
      · rintro ⟨_, h⟩; exact h
      · intro h; exact ⟨hj, h⟩
    by_cases hex : ∃ i, i < R.length ∧
        R.getD i .none = pythonValue k (C.getD j .none)
    · obtain ⟨i, hi, heq⟩ := hex
      have htouch := populateParents_snd_touched fname
        (buildIdMap fname k (C.map (fun v => ({ fkVal := v } : ChildInst))))
        (R.map (fun v => ({ pk := v } : ParentInst))) i 0
        (C.map (fun v => ({ fkVal := v } : ChildInst))) j cDefault
        (by simpa) ((hmemIdx i hi).mpr heq.symm) hjc
        (fun di' hdi' hne' => by
          rw [hmemIdx di' (by simpa using hdi')]
          intro hcon
          exact hne di' i (by simpa using hdi') hi hne'
            (hcon.symm.trans heq.symm))
      rw [htouch, hck j hj]
      refine ⟨rfl, ?_, ?_⟩
      · intro i' hi' heq'
        have : i' = i := by
          by_contra hcon
          exact hne i' i hi' hi hcon (heq'.trans heq.symm)
        simp [this]
      · intro hnone
        exact absurd heq (hnone i hi)
    · have huntouch := populateParents_snd_untouched fname
        (buildIdMap fname k (C.map (fun v => ({ fkVal := v } : ChildInst))))
        (R.map (fun v => ({ pk := v } : ParentInst))) 0
        (C.map (fun v => ({ fkVal := v } : ChildInst))) j cDefault
        (fun di hdi => by
          rw [hmemIdx di (by simpa using hdi)]
          intro hcon
          exact hex ⟨di, by simpa using hdi, hcon.symm⟩)
      rw [huntouch, hck j hj]
      refine ⟨rfl, ?_, fun _ => rfl⟩
      intro i hi heq
      exact absurd ⟨i, hi, heq⟩ hex

/-- Witness for C9 on two parents and three children. -/
theorem c9_prefetch_correct_witness :
    ([PyVal.int 1, PyVal.int 2].Pairwise (fun a b => a ≠ b)) ∧
    ((prefetchRun [PyVal.int 1, PyVal.int 2]
        [PyVal.int 2, PyVal.int 1, PyVal.int 2] "owner" .int).1.getD 0
      pDefault).backrefList = some [1] ∧
    ((prefetchRun [PyVal.int 1, PyVal.int 2]
        [PyVal.int 2, PyVal.int 1, PyVal.int 2] "owner" .int).1.getD 1
      pDefault).backrefList = some [0, 2] ∧
    ((prefetchRun [PyVal.int 1, PyVal.int 2]
        [PyVal.int 2, PyVal.int 1, PyVal.int 2] "owner" .int).2.1.getD 0
      cDefault).parentRef = some 1 ∧
    (prefetchRun [PyVal.int 1, PyVal.int 2]
        [PyVal.int 2, PyVal.int 1, PyVal.int 2] "owner" .int).2.2 = [1, 0] :=
  have h := c9_prefetch_correct [PyVal.int 1, PyVal.int 2]
    [PyVal.int 2, PyVal.int 1, PyVal.int 2] "owner" .int (by decide)
  ⟨by decide,
   ((h.2.2.2.1 0 (by decide)).2).trans (by decide),
   ((h.2.2.2.1 1 (by decide)).2).trans (by decide),
   (h.2.2.2.2 0 (by decide)).2.1 1 (by decide) (by decide),
   h.1⟩

end Peewee
